import Mathlib

/-!
LabelPrintingAutomation: the debounced button and the selection controller.

A shallow embedding of `include/EasyButton/EasyButton.h`, `src/Label.cpp` and the
handlers of `src/main.cpp`, followed by the properties proved about them.

Conventions of the embedding.
* `uint32_t` timestamps, `uint16_t` durations and quantities and `uint8_t` ids are
  natural numbers; unsigned subtraction of timestamps is `sub32`.
* The two hardware reads of `EasyButton::tick` (`millis()` and
  `!digitalRead(_pin)`) are the arguments `now` and `sample` of `EasyButton.tick`.
* A member function that mutates the object and returns a `bool` is a function
  from the state to the pair (new state, returned value).
-/

/-! ## EasyButton -/

/-- The modulus of `uint32_t` arithmetic, 2^32. -/
def UINT32_MOD : Nat := 4294967296

/-- The value of `UINT16_MAX`. -/
def UINT16_MAX : Nat := 65535

/-- Unsigned 32-bit subtraction `a - b` of two `uint32_t` values. -/
def sub32 (a b : Nat) : Nat := (a + UINT32_MOD - b) % UINT32_MOD

/-- The data members of `class EasyButton`. -/
structure EasyButton where
  _pin : Nat
  _debounceMs : Nat
  _holdMs : Nat
  _lastSample : Bool
  _stable : Bool
  _lastStable : Bool
  _pressedTs : Nat
  _lastChangeTs : Nat
  _clickedEvent : Bool
  _longEvent : Bool
  _held : Bool
deriving DecidableEq, Repr

namespace EasyButton

/-- The constructor `EasyButton(uint8_t pin)`. -/
def new (pin : Nat) : EasyButton :=
  { _pin := pin
    _debounceMs := 10
    _holdMs := 1000
    _lastSample := false
    _stable := false
    _lastStable := false
    _pressedTs := 0
    _lastChangeTs := 0
    _clickedEvent := false
    _longEvent := false
    _held := false }

/-- The setter `setDebounce(uint16_t ms)`. -/
def setDebounce (s : EasyButton) (ms : Nat) : EasyButton :=
  { s with _debounceMs := ms }

/-- The setter `setHoldTimeout(uint16_t ms)`. -/
def setHoldTimeout (s : EasyButton) (ms : Nat) : EasyButton :=
  { s with _holdMs := ms }

/-- The private member `onStableEdge(uint32_t now)`, run right after `_stable` and
`_lastStable` have been updated. -/
def onStableEdge (s : EasyButton) (now : Nat) : EasyButton :=
  if s._stable = true ∧ s._lastStable = false then
    { s with _pressedTs := now, _held := false, _longEvent := false, _clickedEvent := false }
  else if s._stable = false ∧ s._lastStable = true then
    let s1 :=
      if s._held = false ∧ s._debounceMs ≤ sub32 now s._pressedTs then
        { s with _clickedEvent := true }
      else s
    { s1 with _held := false }
  else s

/-- The member `tick()`: `now` is the value read from `millis()`, `sample` the value of
`!digitalRead(_pin)`. Returns the new state and the returned `bool`. -/
def tick (s : EasyButton) (now : Nat) (sample : Bool) : EasyButton × Bool :=
  let s1 :=
    if sample ≠ s._lastSample then
      { s with _lastChangeTs := now, _lastSample := sample }
    else s
  if s1._debounceMs ≤ sub32 now s1._lastChangeTs ∧ sample ≠ s1._stable then
    let s2 := { s1 with _lastStable := s1._stable, _stable := sample }
    (onStableEdge s2 now, true)
  else
    let s3 :=
      if s1._stable = true ∧ s1._held = false ∧ s1._holdMs ≤ sub32 now s1._pressedTs then
        { s1 with _held := true, _longEvent := true }
      else s1
    (s3, false)

/-- The member `isClick()`. -/
def isClick (s : EasyButton) : EasyButton × Bool :=
  if s._clickedEvent = true then ({ s with _clickedEvent := false }, true)
  else (s, false)

/-- The member `get_state()`. -/
def get_state (s : EasyButton) : Bool := s._stable

/-- The member `isHolded()`. -/
def isHolded (s : EasyButton) : EasyButton × Bool :=
  if s._longEvent = true then ({ s with _longEvent := false }, true)
  else (s, false)

/-- The member `isHold()`. -/
def isHold (s : EasyButton) : Bool := s._held && s._stable

/-- One call made on a button by its owner. -/
inductive Op where
  | tick (now : Nat) (sample : Bool)
  | isClick
  | isHolded
deriving DecidableEq, Repr

/-- The effect of one call: new state and returned value. -/
def step (s : EasyButton) : Op → EasyButton × Bool
  | Op.tick now sample => s.tick now sample
  | Op.isClick => s.isClick
  | Op.isHolded => s.isHolded

/-- The state after a sequence of calls. -/
def run (s : EasyButton) : List Op → EasyButton
  | [] => s
  | o :: os => run (s.step o).1 os

/-- The state after each call of a sequence, paired with what the call returned. -/
def runTrace (s : EasyButton) : List Op → List (EasyButton × Bool)
  | [] => []
  | o :: os => s.step o :: runTrace (s.step o).1 os

/-- A freshly constructed button whose two timing parameters were then set. -/
def configured (pin debounceMs holdMs : Nat) : EasyButton :=
  ((new pin).setDebounce debounceMs).setHoldTimeout holdMs

/-- The states a button can be in: constructed, configured, then any sequence of
`tick()`, `isClick()` and `isHolded()` calls. -/
def Reachable (s : EasyButton) : Prop :=
  ∃ pin debounceMs holdMs ops, s = run (configured pin debounceMs holdMs) ops

/-! ### Predicates on call sequences -/

/-- Whether, in the sequence `calls` of (clock value, raw sample) pairs, every call
happens less than `d` ms, as the 32-bit clock measures it, after the most recent call at
which the raw sample differed from the previous raw sample. `last` is the raw sample
before the first call; `lastChange` is the clock value of the most recent such call
before the sequence, `none` when there was none. -/
def flickerOnly (d : Nat) : Bool → Option Nat → List (Nat × Bool) → Bool
  | _, _, [] => true
  | last, lastChange, (now, sample) :: rest =>
    let lc := if sample ≠ last then some now else lastChange
    (match lc with
      | none => true
      | some t => decide (sub32 now t < d)) && flickerOnly d sample lc rest

/-- The `tick()` calls that read the given (clock value, raw sample) pairs. -/
def tickOps (calls : List (Nat × Bool)) : List Op :=
  calls.map (fun c => Op.tick c.1 c.2)

/-- Whether the clock values read by the `tick()` calls of `ops` never decrease, the
first one being at least `t`. -/
def nonDecreasing (t : Nat) : List Op → Bool
  | [] => true
  | Op.tick now _ :: os => decide (t ≤ now) && nonDecreasing now os
  | _ :: os => nonDecreasing t os

/-- Whether every clock value read by the `tick()` calls of `ops` is a `uint32_t` value
reached without the counter having wrapped, that is, below 2^32. -/
def nonWrapping : List Op → Bool
  | [] => true
  | Op.tick now _ :: os => decide (now < UINT32_MOD) && nonWrapping os
  | _ :: os => nonWrapping os

/-- Whether no `tick()` of `ops`, run from `s`, commits a falling edge of the debounced
level. -/
def noRelease (s : EasyButton) : List Op → Bool
  | [] => true
  | o :: os =>
    !(s._stable && !(s.step o).1._stable) && noRelease (s.step o).1 os

/-- Whether no `tick()` of `ops`, run from `s`, commits a rising edge of the debounced
level. -/
def noPress (s : EasyButton) : List Op → Bool
  | [] => true
  | o :: os =>
    !(!s._stable && (s.step o).1._stable) && noPress (s.step o).1 os

/-- Relations between the event flags and the debounced level that every call keeps. -/
def FlagInv (s : EasyButton) : Prop :=
  (s._held = true → s._stable = true)
    ∧ (s._stable = true → s._clickedEvent = false)
    ∧ (s._longEvent = true → s._stable = true → s._held = true)
    ∧ (s._clickedEvent = true → s._longEvent = false)

/-- Relations between the stored timestamps and the clock value `t` of the latest
`tick()`, kept by every call as long as the clock neither decreases nor wraps. -/
def TimedInv (t : Nat) (s : EasyButton) : Prop :=
  s._pressedTs ≤ t ∧ s._lastChangeTs ≤ t
    ∧ (s._stable = true → s._held = true → s._pressedTs + s._holdMs ≤ t)
    ∧ (s._stable = true → s._lastSample = false → s._pressedTs ≤ s._lastChangeTs)

/-- The clock value read by the last `tick()` of `ops`, or `t` when there is none. -/
def lastTick (t : Nat) : List Op → Nat
  | [] => t
  | Op.tick now _ :: os => lastTick now os
  | _ :: os => lastTick t os

/-- The number of calls of `ops`, run from `s`, that turn the pending hold-started flag
`_longEvent` from false to true. -/
def holdFires (s : EasyButton) : List Op → Nat
  | [] => 0
  | o :: os =>
    (if s._longEvent = false ∧ (s.step o).1._longEvent = true then 1 else 0)
      + holdFires (s.step o).1 os

/-- The release handling of `onStableEdge` as it would read without the test
`(now - _pressedTs) >= _debounceMs`: the click event is set exactly when `_held` is
false. Everything else is as in `onStableEdge`. -/
def onStableEdgeNoGuard (s : EasyButton) (now : Nat) : EasyButton :=
  if s._stable = true ∧ s._lastStable = false then
    { s with _pressedTs := now, _held := false, _longEvent := false, _clickedEvent := false }
  else if s._stable = false ∧ s._lastStable = true then
    let s1 :=
      if s._held = false then
        { s with _clickedEvent := true }
      else s
    { s1 with _held := false }
  else s

/-- The member `tick()` with `onStableEdgeNoGuard` in place of `onStableEdge`. -/
def tickNoGuard (s : EasyButton) (now : Nat) (sample : Bool) : EasyButton × Bool :=
  let s1 :=
    if sample ≠ s._lastSample then
      { s with _lastChangeTs := now, _lastSample := sample }
    else s
  if s1._debounceMs ≤ sub32 now s1._lastChangeTs ∧ sample ≠ s1._stable then
    let s2 := { s1 with _lastStable := s1._stable, _stable := sample }
    (onStableEdgeNoGuard s2 now, true)
  else
    let s3 :=
      if s1._stable = true ∧ s1._held = false ∧ s1._holdMs ≤ sub32 now s1._pressedTs then
        { s1 with _held := true, _longEvent := true }
      else s1
    (s3, false)

/-- The effect of one call when `tick()` is `tickNoGuard`. -/
def stepNoGuard (s : EasyButton) : Op → EasyButton × Bool
  | Op.tick now sample => s.tickNoGuard now sample
  | Op.isClick => s.isClick
  | Op.isHolded => s.isHolded

/-- The states and returned values of a sequence of calls when `tick()` is
`tickNoGuard`. -/
def runTraceNoGuard (s : EasyButton) : List Op → List (EasyButton × Bool)
  | [] => []
  | o :: os => s.stepNoGuard o :: runTraceNoGuard (s.stepNoGuard o).1 os

end EasyButton

/-! ## Label -/

/-- Conversion of an `int` value to `uint16_t`, as at a call of
`set_quantity(const uint16_t &)` with an `int` argument. -/
def toUint16 (v : Int) : Nat := (v % 65536).toNat

/-- The data members of `class Label`. -/
structure Label where
  _button : EasyButton
  _quantity : Nat
  _id : Nat
  _name : String
deriving DecidableEq, Repr

namespace Label

/-- The constructor `Label(pin, name)`. The static counter `label_count` is passed in
and returned incremented (it is a `uint8_t`); `_id` takes its value before the
increment. -/
def new (pin : Nat) (name : String) (label_count : Nat) : Label × Nat :=
  ({ _button := EasyButton.new pin, _quantity := 0, _id := label_count, _name := name },
   (label_count + 1) % 256)

/-- The member `tick()`; `now` and `sample` are the hardware reads of the button's
`tick()`. -/
def tick (l : Label) (now : Nat) (sample : Bool) : Label :=
  { l with _button := (l._button.tick now sample).1 }

/-- The member `get_quantity()`. -/
def get_quantity (l : Label) : Nat := l._quantity

/-- The member `is_selected()`, which drains the button's click event. -/
def is_selected (l : Label) : Label × Bool :=
  ({ l with _button := (l._button.isClick).1 }, (l._button.isClick).2)

/-- The member `get_name()`. -/
def get_name (l : Label) : String := l._name

/-- The member `set_quantity(const uint16_t &value)`. -/
def set_quantity (l : Label) (value : Nat) : Label :=
  { l with _quantity := value }

/-- The member `get_id()`. -/
def get_id (l : Label) : Nat := l._id

end Label

/-! ## The handlers of main.cpp -/

/-- The macro `LABELS_NUM`. -/
abbrev LABELS_NUM : Nat := 7

/-- What the encoder object reports after `encoder.tick()`: the values returned by
`encoder.turn()`, `encoder.right()`, `encoder.left()` and `encoder.click()`. -/
structure EncoderEvents where
  turn : Bool
  right : Bool
  left : Bool
  click : Bool
deriving DecidableEq, Repr

/-- The mutable globals of main.cpp that the handlers work on: the array
`Label labels[LABELS_NUM]` and `uint8_t selected_label_index`. -/
structure Controller where
  labels : Fin LABELS_NUM → Label
  selected_label_index : Nat

/-- The pins and names in the initialiser of `labels[]`, in declaration order. -/
def roster : List (Nat × String) :=
  [(5, "Headamame Inside"), (4, "Headamame Experience"), (22, "Headamame Precision"),
   (15, "Headamame Classic"), (13, "Minamame Inside"), (12, "Minamame Precision"),
   (14, "Minamame Classic")]

/-- Construction of the array elements in order, threading `Label::label_count`. -/
def constructLabels : List (Nat × String) → Nat → List Label × Nat
  | [], label_count => ([], label_count)
  | (pin, name) :: rest, label_count =>
    ((Label.new pin name label_count).1
        :: (constructLabels rest (Label.new pin name label_count).2).1,
     (constructLabels rest (Label.new pin name label_count).2).2)

/-- The globals as static initialisation leaves them, `Label::label_count` starting
at 0. -/
def startup : Controller :=
  { labels := fun i => (constructLabels roster 0).1.getD i.val (Label.new 0 "" 0).1
    selected_label_index := 0 }

/-- One iteration of the loop of `labels_handler()`, for the counter value `i`; `now` and
`sample` are the hardware reads of `labels[i].tick()`. -/
def labels_body (io : Nat → Nat × Bool) (c : Controller) (i : Fin LABELS_NUM) : Controller :=
  let ticked := (c.labels i).tick (io i.val).1 (io i.val).2
  let c1 := { c with labels := Function.update c.labels i ticked.is_selected.1 }
  if ticked.is_selected.2 = true then { c1 with selected_label_index := i.val } else c1

/-- The function `labels_handler()`: the loop runs `i` over `0, ..., LABELS_NUM - 1` in
increasing order; `io i` is what `millis()` and the pin of label `i` read in
iteration `i`. -/
def labels_handler (c : Controller) (io : Nat → Nat × Bool) : Controller :=
  (List.finRange LABELS_NUM).foldl (labels_body io) c

/-- Whether label `i` reports a click in a run of `labels_handler()` started in `c`:
the value of `labels[i].is_selected()` right after `labels[i].tick()`. -/
def reportsClick (c : Controller) (io : Nat → Nat × Bool) (i : Fin LABELS_NUM) : Bool :=
  (((c.labels i).tick (io i.val).1 (io i.val).2).is_selected).2

/-- The rotation part of `encoder_handler()` applied to the selected label. -/
def rotate (ev : EncoderEvents) (current_label : Label) : Label :=
  if ev.turn = true then
    let l1 :=
      if ev.right = true then
        if current_label.get_quantity < UINT16_MAX then
          current_label.set_quantity (toUint16 ((current_label.get_quantity : Int) + 1))
        else current_label
      else current_label
    if ev.left = true then
      if l1.get_quantity > 0 then
        l1.set_quantity (toUint16 ((l1.get_quantity : Int) - 1))
      else l1
    else l1
  else current_label

/-- The function `encoder_handler()`. `ev` is what the encoder reports, `postOk` what
`http_handler.send_post` returns if it is called (the handler discards it). The result
is the new globals and the list of `send_post(label_id, quantity)` calls made, or
`none` when `labels[selected_label_index]` is out of bounds. -/
def encoder_handler (c : Controller) (ev : EncoderEvents) (postOk : Bool) :
    Option (Controller × List (Nat × Nat)) :=
  if h : c.selected_label_index < LABELS_NUM then
    let current_label := rotate ev (c.labels ⟨c.selected_label_index, h⟩)
    let calls :=
      if ev.click = true then
        if current_label.get_quantity > 0 then
          let _result := postOk
          [(current_label.get_id, current_label.get_quantity)]
        else []
      else []
    some ({ c with labels := Function.update c.labels ⟨c.selected_label_index, h⟩ current_label },
          calls)
  else none

/-- An example state: label 1 is selected and its quantity is 2. -/
def exampleSelected : Controller :=
  { labels := Function.update startup.labels 1 ((startup.labels 1).set_quantity 2)
    selected_label_index := 1 }

/-- An example state: all seven buttons were pressed together, the presses were
committed at clock value 10, and every raw sample read released at clock value 20. -/
def examplePressed : Controller :=
  labels_handler
    (labels_handler (labels_handler startup (fun _ => (0, true))) (fun _ => (10, true)))
    (fun _ => (20, false))

/-- Example reads: at clock value 30 the pins of labels 2 and 4 still read released, the
others read pressed again. -/
def exampleReads (i : Nat) : Nat × Bool := (30, decide (i ≠ 2 ∧ i ≠ 4))

/-- The value of `UINT8_MAX`. -/
def UINT8_MAX : Nat := 255

/-- The two `static` locals of `screen_handler()`. -/
structure ScreenStatics where
  prev_label_index : Nat
  prev_quantity : Nat
deriving DecidableEq, Repr

/-- The statics of `screen_handler()` as initialised. -/
def screenStartup : ScreenStatics :=
  { prev_label_index := UINT8_MAX, prev_quantity := UINT16_MAX }

/-- The function `screen_handler()`. The result is the new statics and the redraws made,
each the name and the quantity printed, or `none` when `labels[current_index]` is out of
bounds. -/
def screen_handler (c : Controller) (st : ScreenStatics) :
    Option (ScreenStatics × List (String × Nat)) :=
  if h : c.selected_label_index < LABELS_NUM then
    let current_index := c.selected_label_index
    let current_quantity := (c.labels ⟨c.selected_label_index, h⟩).get_quantity
    if current_index = st.prev_label_index ∧ current_quantity = st.prev_quantity then
      some (st, [])
    else
      some ({ prev_label_index := current_index, prev_quantity := current_quantity },
            [((c.labels ⟨c.selected_label_index, h⟩).get_name, current_quantity)])
  else none

/-- The state the three handlers work on: the globals and the statics of
`screen_handler()`. -/
structure Firmware where
  controller : Controller
  statics : ScreenStatics

/-- The state when `loop()` is first entered. -/
def firmwareStartup : Firmware :=
  { controller := startup, statics := screenStartup }

/-- One run of one of the three handlers, with what its hardware reads return. -/
inductive HandlerRun where
  | labels (io : Nat → Nat × Bool)
  | encoder (ev : EncoderEvents) (postOk : Bool)
  | screen

/-- The effect of one handler run: the new state and the `send_post` calls made, or
`none` when the run indexes `labels[]` out of bounds. Only `encoder_handler()` refers to
`http_handler`. -/
def runHandler (fw : Firmware) : HandlerRun → Option (Firmware × List (Nat × Nat))
  | HandlerRun.labels io =>
    some ({ fw with controller := labels_handler fw.controller io }, [])
  | HandlerRun.encoder ev postOk =>
    match encoder_handler fw.controller ev postOk with
    | none => none
    | some (c, calls) => some ({ fw with controller := c }, calls)
  | HandlerRun.screen =>
    match screen_handler fw.controller fw.statics with
    | none => none
    | some (st, _) => some ({ fw with statics := st }, [])

/-- The state after a sequence of handler runs, `none` when one of them indexes
`labels[]` out of bounds. -/
def runHandlers (fw : Firmware) : List HandlerRun → Option Firmware
  | [] => some fw
  | r :: rs =>
    match runHandler fw r with
    | none => none
    | some (fw1, _) => runHandlers fw1 rs

/-! ## Properties of EasyButton -/

namespace EasyButton

theorem sub32_self (a : Nat) : sub32 a a = 0 := by
  unfold sub32 UINT32_MOD
  omega

/-- The member `tick()` with the raw-sample bookkeeping of its first `if` written out
field by field. -/
theorem tick_eq (s : EasyButton) (now : Nat) (sample : Bool) :
    s.tick now sample =
      (if s._debounceMs ≤ sub32 now (if sample ≠ s._lastSample then now else s._lastChangeTs)
          ∧ sample ≠ s._stable then
        (onStableEdge { s with
            _lastChangeTs := (if sample ≠ s._lastSample then now else s._lastChangeTs)
            _lastSample := sample, _lastStable := s._stable, _stable := sample } now, true)
      else if s._stable = true ∧ s._held = false ∧ s._holdMs ≤ sub32 now s._pressedTs then
        ({ s with
            _lastChangeTs := (if sample ≠ s._lastSample then now else s._lastChangeTs)
            _lastSample := sample, _held := true, _longEvent := true }, false)
      else
        ({ s with
            _lastChangeTs := (if sample ≠ s._lastSample then now else s._lastChangeTs)
            _lastSample := sample }, false)) := by
  obtain ⟨pin, d, h, ls, st, lst, pts, lcts, ce, le, held⟩ := s
  by_cases hs : sample = ls
  · subst hs
    simp only [tick, ne_eq, not_true_eq_false, if_false]
    split_ifs <;> rfl
  · simp only [tick, ne_eq, hs, not_false_eq_true, if_true]
    split_ifs <;> rfl

/-- What a `tick()` does when the debounce test fails. -/
theorem tick_no_commit (s : EasyButton) (now : Nat) (sample : Bool)
    (h : ¬ (s._debounceMs ≤ sub32 now (if sample ≠ s._lastSample then now else s._lastChangeTs)
          ∧ sample ≠ s._stable)) :
    (s.tick now sample).2 = false ∧ (s.tick now sample).1._stable = s._stable
      ∧ (s.tick now sample).1._debounceMs = s._debounceMs
      ∧ (s.tick now sample).1._lastSample = sample
      ∧ (s.tick now sample).1._lastChangeTs
          = (if sample ≠ s._lastSample then now else s._lastChangeTs) := by
  rw [tick_eq, if_neg h]
  split_ifs <;> simp

theorem isClick_snd (s : EasyButton) : (s.isClick).2 = s._clickedEvent := by
  unfold isClick
  split_ifs with hc
  · simp [hc]
  · simpa using hc

theorem isClick_fst_clickedEvent (s : EasyButton) : (s.isClick).1._clickedEvent = false := by
  unfold isClick
  split_ifs with hc
  · rfl
  · simpa using hc

theorem run_append (a b : List Op) : ∀ s : EasyButton, run s (a ++ b) = run (run s a) b := by
  induction a with
  | nil => intro s; rfl
  | cons o os ih => intro s; exact ih _

theorem flicker_aux (calls : List (Nat × Bool)) :
    ∀ (s : EasyButton) (lastChange : Option Nat), 0 < s._debounceMs →
      (lastChange = some s._lastChangeTs ∨ (lastChange = none ∧ s._lastSample = s._stable)) →
      flickerOnly s._debounceMs s._lastSample lastChange calls = true →
      ∀ r ∈ runTrace s (tickOps calls), r.1._stable = s._stable ∧ r.2 = false := by
  induction calls with
  | nil => intro s lc _ _ _ r hr; simp [tickOps, runTrace] at hr
  | cons c rest ih =>
    obtain ⟨now, sample⟩ := c
    intro s lc hd hseed hf r hr
    simp only [flickerOnly, Bool.and_eq_true] at hf
    obtain ⟨hnow, hrest⟩ := hf
    have hno : ¬ (s._debounceMs ≤ sub32 now (if sample ≠ s._lastSample then now else s._lastChangeTs)
          ∧ sample ≠ s._stable) := by
      by_cases hs : sample ≠ s._lastSample
      · rw [if_pos hs, sub32_self]
        omega
      · rw [if_neg hs] at hnow ⊢
        rcases hseed with h1 | ⟨h1, h2⟩
        · subst h1
          simp only [decide_eq_true_eq] at hnow
          omega
        · have : sample = s._stable := by rw [← h2]; exact not_not.mp hs
          simp [this]
    obtain ⟨t1, t2, t3, t4, t5⟩ := tick_no_commit s now sample hno
    simp only [tickOps, List.map_cons, runTrace, step, List.mem_cons] at hr
    rcases hr with hr | hr
    · subst hr; exact ⟨t2, t1⟩
    · have := ih (s.tick now sample).1
        (if sample ≠ s._lastSample then some now else lc) (by rw [t3]; exact hd)
        (by
          by_cases hs : sample ≠ s._lastSample
          · left; rw [t5, if_pos hs, if_pos hs]
          · rw [if_neg hs]
            rcases hseed with h1 | ⟨h1, h2⟩
            · left; rw [t5, h1, if_neg hs]
            · right; refine ⟨h1, ?_⟩
              rw [t4, t2, ← h2]; exact not_not.mp hs)
        (by rw [t3, t4]; exact hrest) r hr
      rw [t2] at this
      exact this

theorem flagInv_configured (pin d h : Nat) : FlagInv (configured pin d h) := by
  simp [FlagInv, configured, new, setDebounce, setHoldTimeout]

theorem flagInv_step (s : EasyButton) (o : Op) (hs : FlagInv s) : FlagInv (s.step o).1 := by
  obtain ⟨pin, d, h, ls, st, lst, pts, lcts, ce, le, held⟩ := s
  simp only [FlagInv] at hs
  cases o with
  | tick now sample =>
    cases sample <;> cases st <;> cases held <;> cases ce <;> cases le <;>
      simp [step, tick_eq, onStableEdge, FlagInv] at hs ⊢ <;>
      split_ifs <;> simp
  | isClick =>
    simp only [step, isClick, FlagInv]
    split_ifs <;> simp_all
  | isHolded =>
    simp only [step, isHolded, FlagInv]
    split_ifs <;> simp_all

theorem flagInv_run (ops : List Op) : ∀ s : EasyButton, FlagInv s → FlagInv (run s ops) := by
  induction ops with
  | nil => intro s hs; exact hs
  | cons o os ih => intro s hs; exact ih _ (flagInv_step s o hs)

theorem flagInv_of_reachable (s : EasyButton) (hs : Reachable s) : FlagInv s := by
  obtain ⟨pin, d, h, ops, rfl⟩ := hs
  exact flagInv_run ops _ (flagInv_configured pin d h)

/-- C1 (flicker rejection). For every button state with a positive debounce time and
every sequence of `tick()` calls in which each call comes less than `_debounceMs` after
the most recent call whose raw sample differed from the one before it, the debounced
level `_stable` stays what it was and every `tick()` returns false. The history before
the sequence is either a most recent raw change at the time held in `_lastChangeTs`, or
no raw change at all with the raw sample agreeing with the debounced level, as in a
freshly constructed button. -/
theorem flicker_rejection (s : EasyButton) (lastChange : Option Nat)
    (calls : List (Nat × Bool)) (hd : 0 < s._debounceMs)
    (hseed : lastChange = some s._lastChangeTs
      ∨ (lastChange = none ∧ s._lastSample = s._stable))
    (hf : flickerOnly s._debounceMs s._lastSample lastChange calls = true) :
    ∀ r ∈ runTrace s (tickOps calls), r.1.get_state = s.get_state ∧ r.2 = false :=
  flicker_aux calls s lastChange hd hseed hf

theorem flicker_rejection_witness :
    flickerOnly 10 true (some 0) [(12, false), (15, false), (18, true), (25, true)] = true
      ∧ ∀ r ∈ runTrace (run (new 5) [Op.tick 0 true, Op.tick 10 true])
            (tickOps [(12, false), (15, false), (18, true), (25, true)]),
          r.1.get_state = true ∧ r.2 = false :=
  ⟨by decide,
   flicker_rejection (run (new 5) [Op.tick 0 true, Op.tick 10 true]) (some 0)
     [(12, false), (15, false), (18, true), (25, true)] (by decide) (Or.inl (by decide))
     (by decide)⟩

/-- C2 as stated fails. With the default 10 ms debounce and 1000 ms hold times the press
is committed at clock value 10, the raw sample reads released from 1000 on, and the
release is committed at 1010, which is 1000 ms after the press was committed. The ticks
before it, the last ones at 999 and 1009, all saw less than 1000 ms elapsed, so `_held`
is still false and the release sets the click event. -/
theorem long_press_release_can_click :
    ¬ (∀ (pin d h : Nat) (ops : List Op) (now : Nat) (sample : Bool),
        nonDecreasing 0 (ops ++ [Op.tick now sample]) = true →
        (run (configured pin d h) ops)._stable = true →
        ((run (configured pin d h) ops).tick now sample).1._stable = false →
        (run (configured pin d h) ops)._holdMs
          ≤ sub32 now (run (configured pin d h) ops)._pressedTs →
        (((run (configured pin d h) ops).tick now sample).1.isClick).2 = false) := by
  intro hclaim
  have h := hclaim 5 10 1000
    [Op.tick 0 true, Op.tick 5 true, Op.tick 10 true, Op.tick 500 true, Op.tick 999 true,
      Op.tick 1000 false, Op.tick 1005 false, Op.tick 1009 false] 1010 false
    (by decide) (by decide) (by decide) (by decide)
  revert h
  decide

/-- A `tick()` that commits a release while `_held` is set and no click is pending
leaves the click event unset. -/
theorem release_while_held (s : EasyButton) (now : Nat) (sample : Bool)
    (hst : s._stable = true) (hce : s._clickedEvent = false) (hheld : s._held = true) :
    (s.tick now sample).1._clickedEvent = false := by
  obtain ⟨pin, d, h, ls, st, lst, pts, lcts, ce, le, held⟩ := s
  simp only at hst hheld hce
  subst hst hheld hce
  simp only [tick_eq, onStableEdge]
  split_ifs <;> simp_all

theorem held_kept_step (s : EasyButton) (o : Op) (hst : s._stable = true)
    (hheld : s._held = true) (hno : (s.step o).1._stable = true) :
    (s.step o).1._held = true := by
  obtain ⟨pin, d, h, ls, st, lst, pts, lcts, ce, le, held⟩ := s
  simp only at hst hheld
  subst hst hheld
  revert hno
  cases o with
  | tick now sample =>
    cases sample <;> simp [step, tick_eq, onStableEdge]
    split_ifs <;> simp
  | isClick =>
    simp only [step, isClick]
    split_ifs <;> simp
  | isHolded =>
    simp only [step, isHolded]
    split_ifs <;> simp

theorem held_kept_run (mid : List Op) :
    ∀ s : EasyButton, s._stable = true → s._held = true → noRelease s mid = true →
      (run s mid)._stable = true ∧ (run s mid)._held = true := by
  induction mid with
  | nil => intro s hst hheld _; exact ⟨hst, hheld⟩
  | cons o os ih =>
    intro s hst hheld hno
    simp only [noRelease, Bool.and_eq_true, Bool.not_eq_true', Bool.and_eq_false_imp,
      Bool.not_eq_false'] at hno
    have hst1 : (s.step o).1._stable = true := hno.1 hst
    exact ih _ hst1 (held_kept_step s o hst hheld hst1) hno.2

/-- C2, amended. In every reachable state with the button pressed: if a `tick()` that
commits no edge sees at least `_holdMs` elapsed since `_pressedTs`, then, after any
further calls that commit no release, the holding level `_held` is set, and the `tick()`
that commits the release leaves the click event unset, so `isClick()` called right after
it returns false. -/
theorem held_press_never_clicks (s : EasyButton) (t1 : Nat) (x1 : Bool) (mid : List Op)
    (now : Nat) (sample : Bool) (hs : Reachable s) (hst : s._stable = true)
    (hquiet : (s.tick t1 x1).1._stable = true)
    (hthr : s._holdMs ≤ sub32 t1 s._pressedTs)
    (hmid : noRelease (s.tick t1 x1).1 mid = true)
    (hrel : ((run (s.tick t1 x1).1 mid).tick now sample).1._stable = false) :
    (run (s.tick t1 x1).1 mid)._held = true
      ∧ ((run (s.tick t1 x1).1 mid).tick now sample).1._clickedEvent = false
      ∧ (((run (s.tick t1 x1).1 mid).tick now sample).1.isClick).2 = false := by
  have hheld1 : (s.tick t1 x1).1._held = true := by
    obtain ⟨pin, d, h, ls, st, lst, pts, lcts, ce, le, held⟩ := s
    simp only at hst hthr
    subst hst
    revert hquiet
    cases x1 <;> cases held <;>
      simp [tick_eq, onStableEdge, hthr] <;> (try split_ifs) <;> simp
  obtain ⟨hst2, hheld2⟩ := held_kept_run mid _ hquiet hheld1 hmid
  have hreach : Reachable (run (s.tick t1 x1).1 mid) := by
    obtain ⟨pin, d, h, ops, rfl⟩ := hs
    refine ⟨pin, d, h, ops ++ (Op.tick t1 x1 :: mid), ?_⟩
    rw [run_append]
    rfl
  have hce := (flagInv_of_reachable _ hreach).2.1 hst2
  have hclick := release_while_held _ now sample hst2 hce hheld2
  exact ⟨hheld2, hclick, by rw [isClick_snd, hclick]⟩

theorem held_press_never_clicks_witness :
    (run ((run (configured 5 10 1000) [Op.tick 0 true, Op.tick 10 true]).tick 1010 true).1
        [Op.tick 1020 false])._held = true
      ∧ (((run ((run (configured 5 10 1000) [Op.tick 0 true, Op.tick 10 true]).tick
          1010 true).1 [Op.tick 1020 false]).tick 1030 false).1.isClick).2 = false :=
  ⟨(held_press_never_clicks _ 1010 true [Op.tick 1020 false] 1030 false
      ⟨5, 10, 1000, _, rfl⟩ (by decide) (by decide) (by decide) (by decide) (by decide)).1,
   (held_press_never_clicks _ 1010 true [Op.tick 1020 false] 1030 false
      ⟨5, 10, 1000, _, rfl⟩ (by decide) (by decide) (by decide) (by decide) (by decide)).2.2⟩

/-- C4 (idempotent drain). For every button state, `isClick()` changes nothing but
`_clickedEvent`, which is false after the call, and a second `isClick()` right after the
first returns false; the same holds of `isHolded()` and `_longEvent`. -/
theorem drain_idempotent (s : EasyButton) :
    (s.isClick).1 = { s with _clickedEvent := false }
      ∧ ((s.isClick).1.isClick).2 = false
      ∧ (s.isHolded).1 = { s with _longEvent := false }
      ∧ ((s.isHolded).1.isHolded).2 = false := by
  obtain ⟨pin, d, h, ls, st, lst, pts, lcts, ce, le, held⟩ := s
  cases ce <;> cases le <;> simp [isClick, isHolded]

theorem sub32_of_le (a b : Nat) (hba : b ≤ a) (ha : a < UINT32_MOD) : sub32 a b = a - b := by
  unfold sub32 UINT32_MOD at *
  omega

theorem timedInv_configured (pin d h : Nat) : TimedInv 0 (configured pin d h) := by
  simp [TimedInv, configured, new, setDebounce, setHoldTimeout]

theorem timedInv_tick (s : EasyButton) (t now : Nat) (sample : Bool) (hs : TimedInv t s)
    (htn : t ≤ now) (hnow : now < UINT32_MOD) : TimedInv now (s.tick now sample).1 := by
  obtain ⟨pin, d, h, ls, st, lst, pts, lcts, ce, le, held⟩ := s
  simp only [TimedInv] at hs
  obtain ⟨h1, h2, h3, h4⟩ := hs
  have e1 : sub32 now pts = now - pts := sub32_of_le now pts (by omega) hnow
  have e2 : sub32 now lcts = now - lcts := sub32_of_le now lcts (by omega) hnow
  cases sample <;> cases st <;> cases held <;> cases ls <;>
    simp [tick_eq, onStableEdge, TimedInv, sub32_self, e1, e2] at h3 h4 ⊢ <;>
    (try split_ifs) <;> (try simp) <;> omega

theorem timedInv_step (s : EasyButton) (t : Nat) (o : Op) (hs : TimedInv t s)
    (hmono : nonDecreasing t [o] = true) (hwrap : nonWrapping [o] = true) :
    TimedInv (lastTick t [o]) (s.step o).1 := by
  cases o with
  | tick now sample =>
    simp only [nonDecreasing, nonWrapping, Bool.and_true, decide_eq_true_eq] at hmono hwrap
    exact timedInv_tick s t now sample hs hmono hwrap
  | isClick =>
    obtain ⟨pin, d, h, ls, st, lst, pts, lcts, ce, le, held⟩ := s
    simp only [step, isClick, lastTick, TimedInv] at hs ⊢
    split_ifs <;> exact hs
  | isHolded =>
    obtain ⟨pin, d, h, ls, st, lst, pts, lcts, ce, le, held⟩ := s
    simp only [step, isHolded, lastTick, TimedInv] at hs ⊢
    split_ifs <;> exact hs

theorem timedInv_run (ops : List Op) :
    ∀ (s : EasyButton) (t : Nat), TimedInv t s → nonDecreasing t ops = true →
      nonWrapping ops = true → TimedInv (lastTick t ops) (run s ops) := by
  induction ops with
  | nil => intro s t hs _ _; exact hs
  | cons o os ih =>
    intro s t hs hmono hwrap
    cases o with
    | tick now sample =>
      simp only [nonDecreasing, nonWrapping, Bool.and_eq_true, decide_eq_true_eq] at hmono hwrap
      exact ih _ now (timedInv_tick s t now sample hs hmono.1 hwrap.1) hmono.2 hwrap.2
    | isClick =>
      simp only [nonDecreasing, nonWrapping] at hmono hwrap
      exact ih _ t (timedInv_step s t Op.isClick hs (by simp [nonDecreasing])
        (by simp [nonWrapping])) hmono hwrap
    | isHolded =>
      simp only [nonDecreasing, nonWrapping] at hmono hwrap
      exact ih _ t (timedInv_step s t Op.isHolded hs (by simp [nonDecreasing])
        (by simp [nonWrapping])) hmono hwrap

theorem nonDecreasing_append (a b : List Op) :
    ∀ t : Nat, nonDecreasing t (a ++ b) = (nonDecreasing t a && nonDecreasing (lastTick t a) b) := by
  induction a with
  | nil => intro t; simp [nonDecreasing, lastTick]
  | cons o os ih =>
    intro t
    cases o <;> simp [nonDecreasing, lastTick, ih, Bool.and_assoc]

theorem nonWrapping_append (a b : List Op) :
    nonWrapping (a ++ b) = (nonWrapping a && nonWrapping b) := by
  induction a with
  | nil => simp [nonWrapping]
  | cons o os ih => cases o <;> simp [nonWrapping, ih, Bool.and_assoc]

/-- A committed release less than `_holdMs` after the committed press sets the click
event, whatever the debounce time. -/
theorem release_sets_click (s : EasyButton) (t now : Nat) (sample : Bool)
    (hinv : TimedInv t s) (htn : t ≤ now) (hnow : now < UINT32_MOD)
    (hst : s._stable = true) (hrel : (s.tick now sample).1._stable = false)
    (hshort : sub32 now s._pressedTs < s._holdMs) :
    (s.tick now sample).1._clickedEvent = true := by
  obtain ⟨pin, d, h, ls, st, lst, pts, lcts, ce, le, held⟩ := s
  simp only [TimedInv] at hinv
  obtain ⟨h1, h2, h3, h4⟩ := hinv
  simp only at hst hshort
  subst hst
  have e1 : sub32 now pts = now - pts := sub32_of_le now pts (by omega) hnow
  have e2 : sub32 now lcts = now - lcts := sub32_of_le now lcts (by omega) hnow
  rw [e1] at hshort
  revert hrel
  cases sample <;> cases held <;> cases ls <;>
    simp [tick_eq, onStableEdge, sub32_self, e1, e2] at h3 h4 ⊢ <;>
    (try split_ifs) <;> (try simp) <;> omega

theorem click_clear_step (s : EasyButton) (o : Op) (hce : s._clickedEvent = false)
    (hno : ¬ (s._stable = true ∧ (s.step o).1._stable = false)) :
    (s.step o).1._clickedEvent = false := by
  obtain ⟨pin, d, h, ls, st, lst, pts, lcts, ce, le, held⟩ := s
  simp only at hce
  subst hce
  revert hno
  cases o with
  | tick now sample =>
    cases sample <;> cases st <;>
      simp [step, tick_eq, onStableEdge] <;> (try split_ifs) <;> simp
  | isClick => simp [step, isClick]
  | isHolded =>
    simp only [step, isHolded]
    split_ifs <;> simp

theorem click_clear_run (more : List Op) :
    ∀ s : EasyButton, s._clickedEvent = false → noRelease s more = true →
      (run s more)._clickedEvent = false := by
  induction more with
  | nil => intro s hce _; exact hce
  | cons o os ih =>
    intro s hce hno
    simp only [noRelease, Bool.and_eq_true, Bool.not_eq_true', Bool.and_eq_false_imp,
      Bool.not_eq_false'] at hno
    refine ih _ (click_clear_step s o hce ?_) hno.2
    intro hc
    have := hno.1 hc.1
    rw [hc.2] at this
    exact Bool.noConfusion this

theorem click_kept_step (s : EasyButton) (o : Op) (hce : s._clickedEvent = true)
    (hop : o ≠ Op.isClick) (hno : ¬ (s._stable = false ∧ (s.step o).1._stable = true)) :
    (s.step o).1._clickedEvent = true := by
  obtain ⟨pin, d, h, ls, st, lst, pts, lcts, ce, le, held⟩ := s
  simp only at hce
  subst hce
  revert hno
  cases o with
  | tick now sample =>
    cases sample <;> cases st <;>
      simp [step, tick_eq, onStableEdge] <;> (try split_ifs) <;> simp
  | isClick => exact absurd rfl hop
  | isHolded =>
    simp only [step, isHolded]
    split_ifs <;> simp

theorem click_kept_run (between : List Op) :
    ∀ s : EasyButton, s._clickedEvent = true → Op.isClick ∉ between →
      noPress s between = true → (run s between)._clickedEvent = true := by
  induction between with
  | nil => intro s hce _ _; exact hce
  | cons o os ih =>
    intro s hce hmem hno
    simp only [noPress, Bool.and_eq_true, Bool.not_eq_true', Bool.and_eq_false_imp,
      Bool.not_eq_false'] at hno
    simp only [List.mem_cons, not_or] at hmem
    refine ih _ (click_kept_step s o hce (fun h => hmem.1 h.symm) ?_) hmem.2 hno.2
    intro hc
    have := hno.1 (by simp [hc.1])
    rw [hc.2] at this
    exact Bool.noConfusion this

/-- C3 as stated fails. With the default 10 ms debounce and 1000 ms hold times the press
is committed at clock value 10 and the release at 310, 300 ms later, which sets the click
event. The next press is committed at 410 before `isClick()` is called; the pressed-edge
branch of `onStableEdge` clears `_clickedEvent`, so the first `isClick()` after the
release returns false. -/
theorem short_press_click_cleared_by_next_press :
    ¬ (∀ (pin d h : Nat) (ops : List Op) (now : Nat) (sample : Bool) (between : List Op),
        nonDecreasing 0 (ops ++ Op.tick now sample :: between) = true →
        nonWrapping (ops ++ Op.tick now sample :: between) = true →
        (run (configured pin d h) ops)._stable = true →
        ((run (configured pin d h) ops).tick now sample).1._stable = false →
        sub32 now (run (configured pin d h) ops)._pressedTs
          < (run (configured pin d h) ops)._holdMs →
        Op.isClick ∉ between →
        ((run (configured pin d h) ops).tick now sample).1._clickedEvent = true
          ∧ ((run ((run (configured pin d h) ops).tick now sample).1 between).isClick).2
              = true) := by
  intro hclaim
  have h := (hclaim 5 10 1000 [Op.tick 0 true, Op.tick 10 true, Op.tick 300 false] 310 false
    [Op.tick 400 true, Op.tick 410 true]
    (by decide) (by decide) (by decide) (by decide) (by decide) (by decide)).2
  revert h
  decide

/-- C3, amended. From a constructed and configured button, along any sequence of calls
whose `tick()` clock values never decrease and never wrap: if a `tick()` commits a
release and sees less than `_holdMs` elapsed since `_pressedTs`, it sets the click event;
the first `isClick()` after it returns true when no press is committed between that
`tick()` and the call, whether it is called at once or after further `tick()` and
`isHolded()` calls; and once an `isClick()` has drained the event every `isClick()`
returns false as long as no further release is committed. -/
theorem short_press_clicks_once (pin d h : Nat) (ops : List Op) (now : Nat) (sample : Bool)
    (s : EasyButton) (hs : s = run (configured pin d h) ops)
    (hmono : nonDecreasing 0 (ops ++ [Op.tick now sample]) = true)
    (hwrap : nonWrapping (ops ++ [Op.tick now sample]) = true)
    (hst : s._stable = true) (hrel : (s.tick now sample).1._stable = false)
    (hshort : sub32 now s._pressedTs < s._holdMs) :
    (s.tick now sample).1._clickedEvent = true
      ∧ ((s.tick now sample).1.isClick).2 = true
      ∧ (∀ between : List Op, Op.isClick ∉ between →
          noPress (s.tick now sample).1 between = true →
          ((run (s.tick now sample).1 between).isClick).2 = true)
      ∧ ∀ between more : List Op, Op.isClick ∉ between →
          noRelease ((run (s.tick now sample).1 between).isClick).1 more = true →
          ((run ((run (s.tick now sample).1 between).isClick).1 more).isClick).2 = false := by
  rw [nonDecreasing_append, Bool.and_eq_true] at hmono
  rw [nonWrapping_append, Bool.and_eq_true] at hwrap
  have hinv : TimedInv (lastTick 0 ops) s := by
    rw [hs]
    exact timedInv_run ops _ 0 (timedInv_configured pin d h) hmono.1 hwrap.1
  have htn : lastTick 0 ops ≤ now := by
    simpa [nonDecreasing] using hmono.2
  have hnow : now < UINT32_MOD := by
    simpa [nonWrapping] using hwrap.2
  have hclick := release_sets_click s _ now sample hinv htn hnow hst hrel hshort
  refine ⟨hclick, by rw [isClick_snd, hclick], ?_, ?_⟩
  · intro between hmem hno
    rw [isClick_snd]
    exact click_kept_run between _ hclick hmem hno
  · intro between more _ hmore
    rw [isClick_snd]
    exact click_clear_run more _ (isClick_fst_clickedEvent _) hmore

theorem short_press_clicks_once_witness :
    ((run (configured 5 10 1000) [Op.tick 0 true, Op.tick 10 true, Op.tick 300 false]).tick
        310 false).1._clickedEvent = true
      ∧ (((run (configured 5 10 1000) [Op.tick 0 true, Op.tick 10 true, Op.tick 300 false]).tick
        310 false).1.isClick).2 = true
      ∧ ((run ((run (configured 5 10 1000)
            [Op.tick 0 true, Op.tick 10 true, Op.tick 300 false]).tick 310 false).1
          [Op.tick 320 false, Op.isHolded, Op.tick 400 true]).isClick).2 = true :=
  ⟨(short_press_clicks_once 5 10 1000 [Op.tick 0 true, Op.tick 10 true, Op.tick 300 false]
      310 false _ rfl (by decide) (by decide) (by decide) (by decide) (by decide)).1,
   (short_press_clicks_once 5 10 1000 [Op.tick 0 true, Op.tick 10 true, Op.tick 300 false]
      310 false _ rfl (by decide) (by decide) (by decide) (by decide) (by decide)).2.1,
   (short_press_clicks_once 5 10 1000 [Op.tick 0 true, Op.tick 10 true, Op.tick 300 false]
      310 false _ rfl (by decide) (by decide) (by decide) (by decide) (by decide)).2.2.1
      [Op.tick 320 false, Op.isHolded, Op.tick 400 true] (by decide) (by decide)⟩

/-- C6 (rollover safety). For every 32-bit timestamp `t0` and elapsed duration
`d < 2^32`, at clock value `now = (t0 + d) mod 2^32` the 32-bit difference `now - t0` that
`tick()` compares equals `d`; so a `tick()` at `now` with `_lastChangeTs = t0` and an
unchanged raw sample returns true exactly when `d ≥ _debounceMs` and the raw sample
differs from the debounced level, and then the raw sample becomes the debounced level.
In particular a press first sampled at `2^32 - 5` and sampled again at clock value 20
with the 10 ms debounce time is committed. -/
theorem rollover_safe (s : EasyButton) (t0 d : Nat) (sample : Bool)
    (ht0 : t0 < UINT32_MOD) (hd : d < UINT32_MOD)
    (hts : s._lastChangeTs = t0) (hsame : s._lastSample = sample) :
    sub32 ((t0 + d) % UINT32_MOD) t0 = d
      ∧ ((s.tick ((t0 + d) % UINT32_MOD) sample).2 = true
          ↔ (s._debounceMs ≤ d ∧ sample ≠ s._stable))
      ∧ (s._debounceMs ≤ d → sample ≠ s._stable →
          (s.tick ((t0 + d) % UINT32_MOD) sample).1._stable = sample)
      ∧ sub32 20 (UINT32_MOD - 5) = 25
      ∧ (((new 5).tick (UINT32_MOD - 5) true).1.tick 20 true).2 = true
      ∧ (((new 5).tick (UINT32_MOD - 5) true).1.tick 20 true).1._stable = true := by
  have e : sub32 ((t0 + d) % UINT32_MOD) t0 = d := by
    unfold sub32 UINT32_MOD at *
    omega
  refine ⟨e, ?_, ?_, by decide, by decide, by decide⟩
  · obtain ⟨pin, dm, h, ls, st, lst, pts, lcts, ce, le, held⟩ := s
    simp only at hts hsame
    subst hts hsame
    rw [tick_eq]
    simp only [ne_eq, not_true_eq_false, if_false, e]
    split_ifs <;> simp_all
  · intro h1 h2
    obtain ⟨pin, dm, h, ls, st, lst, pts, lcts, ce, le, held⟩ := s
    simp only at hts hsame h1 h2
    subst hts hsame
    rw [tick_eq]
    simp only [ne_eq, not_true_eq_false, if_false, e]
    rw [if_pos ⟨h1, h2⟩]
    simp only [onStableEdge]
    split_ifs <;> rfl

theorem rollover_safe_witness :
    sub32 ((4294967291 + 25) % UINT32_MOD) 4294967291 = 25
      ∧ (((new 5).tick 4294967291 true).1.tick ((4294967291 + 25) % UINT32_MOD) true).2
          = true :=
  ⟨(rollover_safe ((new 5).tick 4294967291 true).1 4294967291 25 true (by decide) (by decide)
      (by decide) (by decide)).1,
   (rollover_safe ((new 5).tick 4294967291 true).1 4294967291 25 true (by decide) (by decide)
      (by decide) (by decide)).2.1.mpr (by decide)⟩

/-! ### Return value, press edge, exclusivity -/

/-- C12 (return value of `tick()`). For every button state, raw sample and clock value,
`tick()` returns true if and only if `_stable` after the call differs from `_stable`
before it; a call that returns false changes nothing but the raw-sample bookkeeping
`_lastSample`, `_lastChangeTs` and the hold flags `_held`, `_longEvent`. -/
theorem tick_returns_level_change (s : EasyButton) (now : Nat) (sample : Bool) :
    ((s.tick now sample).2 = true ↔ (s.tick now sample).1._stable ≠ s._stable)
      ∧ ((s.tick now sample).2 = false →
          (s.tick now sample).1 =
            { s with
              _lastSample := (s.tick now sample).1._lastSample
              _lastChangeTs := (s.tick now sample).1._lastChangeTs
              _held := (s.tick now sample).1._held
              _longEvent := (s.tick now sample).1._longEvent }) := by
  obtain ⟨pin, d, h, ls, st, lst, pts, lcts, ce, le, held⟩ := s
  rw [tick_eq]
  refine ⟨?_, ?_⟩
  · cases sample <;> cases st <;> simp [onStableEdge] <;> split_ifs <;> simp
  · split_ifs <;> simp

/-- C15 (a new press starts clean). For every button state, after a `tick()` that takes
`_stable` from false to true, `_pressedTs` is that tick's clock value and the click
event, the hold-started event and the holding level are all false; `isClick()` and
`isHolded()` return false, and keep returning false however often they are called
before the next `tick()`. -/
theorem press_starts_clean (s : EasyButton) (now : Nat) (sample : Bool)
    (hbefore : s._stable = false) (hafter : (s.tick now sample).1._stable = true) :
    (s.tick now sample).1._pressedTs = now
      ∧ (s.tick now sample).1._clickedEvent = false
      ∧ (s.tick now sample).1._longEvent = false
      ∧ (s.tick now sample).1._held = false
      ∧ (s.tick now sample).1.isHold = false
      ∧ ∀ ops : List Op, (∀ o ∈ ops, o = Op.isClick ∨ o = Op.isHolded) →
          ∀ r ∈ runTrace (s.tick now sample).1 ops, r.2 = false := by
  have key : (s.tick now sample).1._pressedTs = now
      ∧ (s.tick now sample).1._clickedEvent = false
      ∧ (s.tick now sample).1._longEvent = false
      ∧ (s.tick now sample).1._held = false := by
    obtain ⟨pin, d, h, ls, st, lst, pts, lcts, ce, le, held⟩ := s
    simp only at hbefore
    subst hbefore
    revert hafter
    cases sample <;> simp [tick_eq, onStableEdge]
    split_ifs <;> simp
  obtain ⟨k1, k2, k3, k4⟩ := key
  refine ⟨k1, k2, k3, k4, by simp [isHold, k4], ?_⟩
  intro ops
  generalize (s.tick now sample).1 = s1 at k2 k3
  induction ops generalizing s1 with
  | nil => intro _ r hr; simp [runTrace] at hr
  | cons o os ih =>
    intro hops r hr
    have ho := hops o (List.mem_cons_self _ _)
    have hstep : (s1.step o).2 = false ∧ (s1.step o).1._clickedEvent = false
        ∧ (s1.step o).1._longEvent = false := by
      rcases ho with rfl | rfl
      · simp [step, isClick, k2, k3]
      · simp [step, isHolded, k2, k3]
    simp only [runTrace, List.mem_cons] at hr
    rcases hr with rfl | hr
    · exact hstep.1
    · exact ih _ hstep.2.1 hstep.2.2 (fun o ho => hops o (List.mem_cons_of_mem _ ho)) r hr

theorem press_starts_clean_witness :
    ((run (new 5) [Op.tick 0 true]).tick 10 true).1._pressedTs = 10
      ∧ (((run (new 5) [Op.tick 0 true]).tick 10 true).1.isClick).2 = false :=
  ⟨(press_starts_clean (run (new 5) [Op.tick 0 true]) 10 true (by decide) (by decide)).1,
   (press_starts_clean (run (new 5) [Op.tick 0 true]) 10 true (by decide)
      (by decide)).2.2.2.2.2 [Op.isClick] (by simp) _ (List.mem_cons_self _ _)⟩

/-- C19 (click and hold-started are mutually exclusive). In every reachable state the
pending click event and the pending hold-started event are not both true, and a pending
click event implies that the debounced level `_stable` is false. -/
theorem click_excludes_hold (s : EasyButton) (hs : Reachable s) :
    ¬ (s._clickedEvent = true ∧ s._longEvent = true)
      ∧ (s._clickedEvent = true → s._stable = false) := by
  obtain ⟨_, h2, _, h4⟩ := flagInv_of_reachable s hs
  refine ⟨?_, ?_⟩
  · rintro ⟨hc, hl⟩
    rw [h4 hc] at hl
    exact Bool.noConfusion hl
  · intro hc
    cases hst : s._stable
    · rfl
    · rw [h2 hst] at hc
      exact Bool.noConfusion hc

theorem click_excludes_hold_witness :
    (run (configured 5 10 1000)
        [Op.tick 0 true, Op.tick 10 true, Op.tick 300 false, Op.tick 310 false])._clickedEvent
        = true
      ∧ (run (configured 5 10 1000)
        [Op.tick 0 true, Op.tick 10 true, Op.tick 300 false, Op.tick 310 false])._stable
        = false :=
  ⟨by decide, (click_excludes_hold _ ⟨5, 10, 1000, _, rfl⟩).2 (by decide)⟩

/-! ### The hold-started event within one press -/

/-- What a call that leaves the button pressed does to the hold flags. -/
theorem pressed_step (s : EasyButton) (o : Op) (hst : s._stable = true)
    (hno : (s.step o).1._stable = true) :
    (s.step o).1._pressedTs = s._pressedTs ∧ (s.step o).1._holdMs = s._holdMs
      ∧ (s._held = true → (s.step o).1._held = true)
      ∧ (s._longEvent = false → (s.step o).1._longEvent = true →
          s._held = false ∧ (s.step o).1._held = true)
      ∧ (s._held = false → (∀ t y, o = Op.tick t y → sub32 t s._pressedTs < s._holdMs) →
          (s.step o).1._held = false
            ∧ (s._longEvent = false → (s.step o).1._longEvent = false))
      ∧ (s._held = false → ∀ t y, o = Op.tick t y → s._holdMs ≤ sub32 t s._pressedTs →
          (s.step o).1._held = true ∧ (s.step o).1._longEvent = true) := by
  obtain ⟨pin, d, h, ls, st, lst, pts, lcts, ce, le, held⟩ := s
  simp only at hst
  subst hst
  revert hno
  cases o with
  | tick now sample =>
    cases sample <;> cases held <;> cases le <;>
      simp [step, tick_eq, onStableEdge] <;> (try split_ifs) <;> (try simp) <;>
      (try omega)
  | isClick =>
    simp only [step, isClick]
    split_ifs <;> simp
  | isHolded =>
    cases le <;> simp [step, isHolded]

theorem noRelease_cons (s : EasyButton) (o : Op) (os : List Op) (hst : s._stable = true)
    (hno : noRelease s (o :: os) = true) :
    (s.step o).1._stable = true ∧ noRelease (s.step o).1 os = true := by
  simp only [noRelease, Bool.and_eq_true, Bool.not_eq_true', Bool.and_eq_false_imp,
    Bool.not_eq_false'] at hno
  exact ⟨hno.1 hst, hno.2⟩

theorem noRelease_append (a b : List Op) :
    ∀ s : EasyButton, noRelease s (a ++ b) = (noRelease s a && noRelease (run s a) b) := by
  induction a with
  | nil => intro s; simp [noRelease, run]
  | cons o os ih => intro s; simp [noRelease, run, ih, Bool.and_assoc]

theorem holdFires_append (a b : List Op) :
    ∀ s : EasyButton, holdFires s (a ++ b) = holdFires s a + holdFires (run s a) b := by
  induction a with
  | nil => intro s; simp [holdFires, run]
  | cons o os ih => intro s; simp [holdFires, run, ih, Nat.add_assoc]

/-- While the button stays pressed and held, the hold-started event is not set again and
`isHold()` stays true. -/
theorem held_phase (ops : List Op) :
    ∀ s : EasyButton, s._stable = true → s._held = true → noRelease s ops = true →
      holdFires s ops = 0 ∧ ∀ r ∈ runTrace s ops, r.1.isHold = true := by
  induction ops with
  | nil => intro s _ _ _; exact ⟨rfl, fun r hr => by simp [runTrace] at hr⟩
  | cons o os ih =>
    intro s hst hheld hno
    obtain ⟨hst1, hno1⟩ := noRelease_cons s o os hst hno
    obtain ⟨_, _, p3, p4, _, _⟩ := pressed_step s o hst hst1
    obtain ⟨i1, i2⟩ := ih _ hst1 (p3 hheld) hno1
    refine ⟨?_, ?_⟩
    · simp only [holdFires, i1, Nat.add_zero]
      rw [if_neg]
      rintro ⟨h1, h2⟩
      have := (p4 h1 h2).1
      rw [hheld] at this
      exact Bool.noConfusion this
    · intro r hr
      simp only [runTrace, List.mem_cons] at hr
      rcases hr with rfl | hr
      · simp [isHold, hst1, p3 hheld]
      · exact i2 r hr

/-- While the button stays pressed and no `tick()` sees the hold time elapsed, the
hold-started event is not set. -/
theorem below_phase (ops : List Op) :
    ∀ s : EasyButton, s._stable = true → s._held = false → s._longEvent = false →
      noRelease s ops = true →
      (∀ t y, Op.tick t y ∈ ops → sub32 t s._pressedTs < s._holdMs) →
      holdFires s ops = 0
        ∧ (∀ r ∈ runTrace s ops, r.1._longEvent = false ∧ r.1.isHold = false)
        ∧ (run s ops)._stable = true ∧ (run s ops)._held = false
        ∧ (run s ops)._longEvent = false ∧ (run s ops)._pressedTs = s._pressedTs
        ∧ (run s ops)._holdMs = s._holdMs := by
  induction ops with
  | nil =>
    intro s hst hheld hle _ _
    exact ⟨rfl, fun r hr => by simp [runTrace] at hr, hst, hheld, hle, rfl, rfl⟩
  | cons o os ih =>
    intro s hst hheld hle hno hbelow
    obtain ⟨hst1, hno1⟩ := noRelease_cons s o os hst hno
    obtain ⟨p1, p2, _, _, p5, _⟩ := pressed_step s o hst hst1
    obtain ⟨q1, q2⟩ := p5 hheld (fun t y ho => hbelow t y (by rw [ho]; exact List.mem_cons_self _ _))
    have q3 := q2 hle
    obtain ⟨i1, i2, i3, i4, i5, i6, i7⟩ := ih _ hst1 q1 q3 hno1
      (fun t y hm => by rw [p1, p2]; exact hbelow t y (List.mem_cons_of_mem _ hm))
    refine ⟨?_, ?_, i3, i4, i5, by rw [run, i6, p1], by rw [run, i7, p2]⟩
    · simp only [holdFires, i1, Nat.add_zero]
      rw [if_neg]
      rintro ⟨_, h2⟩
      rw [q3] at h2
      exact Bool.noConfusion h2
    · intro r hr
      simp only [runTrace, List.mem_cons] at hr
      rcases hr with rfl | hr
      · exact ⟨q3, by simp [isHold, q1]⟩
      · exact i2 r hr

/-- While the button stays pressed the hold-started event is set at most once. -/
theorem fires_at_most_once (ops : List Op) :
    ∀ s : EasyButton, s._stable = true → noRelease s ops = true → holdFires s ops ≤ 1 := by
  induction ops with
  | nil => intro s _ _; exact Nat.zero_le _
  | cons o os ih =>
    intro s hst hno
    obtain ⟨hst1, hno1⟩ := noRelease_cons s o os hst hno
    obtain ⟨_, _, _, p4, _, _⟩ := pressed_step s o hst hst1
    simp only [holdFires]
    split_ifs with hfire
    · have hheld1 := (p4 hfire.1 hfire.2).2
      rw [(held_phase os _ hst1 hheld1 hno1).1]
    · have := ih _ hst1 hno1
      omega

/-- C16 (hold-started fires once per press). After a `tick()` that commits a press, and
as long as no release is committed: the hold-started event `_longEvent` is set by at most
one call; it is set by no call while every `tick()` sees less than `_holdMs` elapsed since
`_pressedTs`; the first `tick()` that sees at least `_holdMs` elapsed, in 32-bit
arithmetic, sets it and makes `isHold()` true; and after that tick no call sets it again
and `isHold()` is true after every call. -/
theorem hold_fires_once (s : EasyButton) (now0 : Nat) (x0 : Bool)
    (hbefore : s._stable = false) (hafter : (s.tick now0 x0).1._stable = true) :
    (∀ mid : List Op, noRelease (s.tick now0 x0).1 mid = true →
        holdFires (s.tick now0 x0).1 mid ≤ 1)
      ∧ (∀ mid : List Op, noRelease (s.tick now0 x0).1 mid = true →
        (∀ t y, Op.tick t y ∈ mid → sub32 t now0 < s._holdMs) →
        holdFires (s.tick now0 x0).1 mid = 0
          ∧ ∀ r ∈ runTrace (s.tick now0 x0).1 mid, r.1._longEvent = false ∧ r.1.isHold = false)
      ∧ ∀ (pre post : List Op) (now : Nat) (x : Bool),
        noRelease (s.tick now0 x0).1 (pre ++ Op.tick now x :: post) = true →
        (∀ t y, Op.tick t y ∈ pre → sub32 t now0 < s._holdMs) →
        s._holdMs ≤ sub32 now now0 →
        holdFires (s.tick now0 x0).1 pre = 0
          ∧ (run (s.tick now0 x0).1 pre)._longEvent = false
          ∧ ((run (s.tick now0 x0).1 pre).tick now x).1._longEvent = true
          ∧ ((run (s.tick now0 x0).1 pre).tick now x).1.isHold = true
          ∧ holdFires ((run (s.tick now0 x0).1 pre).tick now x).1 post = 0
          ∧ (∀ r ∈ runTrace ((run (s.tick now0 x0).1 pre).tick now x).1 post,
              r.1.isHold = true)
          ∧ holdFires (s.tick now0 x0).1 (pre ++ Op.tick now x :: post) = 1 := by
  have key : (s.tick now0 x0).1._pressedTs = now0 ∧ (s.tick now0 x0).1._longEvent = false
      ∧ (s.tick now0 x0).1._held = false ∧ (s.tick now0 x0).1._holdMs = s._holdMs := by
    obtain ⟨pin, d, h, ls, st, lst, pts, lcts, ce, le, held⟩ := s
    simp only at hbefore
    subst hbefore
    revert hafter
    cases x0 <;> simp [tick_eq, onStableEdge]
    split_ifs <;> simp
  obtain ⟨k1, k2, k3, k4⟩ := key
  generalize (s.tick now0 x0).1 = s1 at hafter k1 k2 k3 k4
  refine ⟨fun mid hmid => fires_at_most_once mid s1 hafter hmid, ?_, ?_⟩
  · intro mid hmid hbelow
    obtain ⟨b1, b2, _⟩ := below_phase mid s1 hafter k3 k2 hmid
      (fun t y hm => by rw [k1, k4]; exact hbelow t y hm)
    exact ⟨b1, b2⟩
  · intro pre post now x hno hbelow hthr
    rw [noRelease_append, Bool.and_eq_true] at hno
    obtain ⟨hno1, hno2⟩ := hno
    obtain ⟨b1, _, b3, b4, b5, b6, b7⟩ := below_phase pre s1 hafter k3 k2 hno1
      (fun t y hm => by rw [k1, k4]; exact hbelow t y hm)
    obtain ⟨hst2, hno3⟩ := noRelease_cons _ _ post b3 hno2
    obtain ⟨_, _, _, _, _, p6⟩ := pressed_step _ (Op.tick now x) b3 hst2
    obtain ⟨hheld2, hle2⟩ := p6 b4 now x rfl (by rw [b6, b7, k1, k4]; exact hthr)
    simp only [step] at hst2 hno3 hheld2 hle2
    obtain ⟨h1, h2⟩ := held_phase post _ hst2 hheld2 hno3
    refine ⟨b1, b5, hle2, by simp [isHold, hst2, hheld2], h1, h2, ?_⟩
    rw [holdFires_append, b1]
    simp only [holdFires, step, h1, Nat.add_zero, Nat.zero_add]
    rw [if_pos ⟨b5, hle2⟩]

theorem hold_fires_once_witness :
    holdFires ((run (new 5) [Op.tick 0 true]).tick 10 true).1
        ([Op.tick 500 true, Op.isHolded] ++ Op.tick 1010 true ::
          [Op.tick 1500 true, Op.isHolded, Op.tick 1600 true]) = 1 :=
  ((hold_fires_once (run (new 5) [Op.tick 0 true]) 10 true (by decide) (by decide)).2.2
    [Op.tick 500 true, Op.isHolded] [Op.tick 1500 true, Op.isHolded, Op.tick 1600 true]
    1010 true (by decide)
    (by
      intro t y hm
      simp only [List.mem_cons, Op.tick.injEq, List.mem_singleton, List.not_mem_nil,
        or_false] at hm
      rcases hm with ⟨rfl, _⟩ | hm
      · decide
      · exact Op.noConfusion hm)
    (by decide)).2.2.2.2.2.2

/-! ### The minimum-duration test on release -/

/-- At a committed release the time since the committed press is at least the debounce
time, provided the clock has neither decreased nor wrapped. -/
theorem release_guard_holds (s : EasyButton) (t now : Nat) (sample : Bool)
    (hinv : TimedInv t s) (htn : t ≤ now) (hnow : now < UINT32_MOD)
    (hst : s._stable = true) (hrel : (s.tick now sample).1._stable = false) :
    s._debounceMs ≤ sub32 now s._pressedTs := by
  obtain ⟨pin, d, h, ls, st, lst, pts, lcts, ce, le, held⟩ := s
  simp only [TimedInv] at hinv
  obtain ⟨h1, h2, h3, h4⟩ := hinv
  simp only at hst
  subst hst
  have e1 : sub32 now pts = now - pts := sub32_of_le now pts (by omega) hnow
  have e2 : sub32 now lcts = now - lcts := sub32_of_le now lcts (by omega) hnow
  revert hrel
  cases sample <;> cases held <;> cases ls <;>
    simp [tick_eq, onStableEdge, sub32_self, e1, e2] at h3 h4 ⊢ <;>
    (try split_ifs) <;> (try simp) <;> omega

theorem onStableEdge_stable (s : EasyButton) (now : Nat) :
    (onStableEdge s now)._stable = s._stable := by
  unfold onStableEdge
  split_ifs <;> rfl

theorem onStableEdgeNoGuard_eq (s : EasyButton) (now : Nat)
    (hg : s._stable = false → s._lastStable = true → s._debounceMs ≤ sub32 now s._pressedTs) :
    onStableEdgeNoGuard s now = onStableEdge s now := by
  unfold onStableEdgeNoGuard onStableEdge
  by_cases h1 : s._stable = true ∧ s._lastStable = false
  · rw [if_pos h1, if_pos h1]
  · rw [if_neg h1, if_neg h1]
    by_cases h2 : s._stable = false ∧ s._lastStable = true
    · rw [if_pos h2, if_pos h2]
      have := hg h2.1 h2.2
      simp only [this, and_true]
    · rw [if_neg h2, if_neg h2]

theorem tickNoGuard_flat (s : EasyButton) (now : Nat) (sample : Bool) :
    s.tickNoGuard now sample =
      (if s._debounceMs ≤ sub32 now (if sample ≠ s._lastSample then now else s._lastChangeTs)
          ∧ sample ≠ s._stable then
        (onStableEdgeNoGuard { s with
            _lastChangeTs := (if sample ≠ s._lastSample then now else s._lastChangeTs)
            _lastSample := sample, _lastStable := s._stable, _stable := sample } now, true)
      else if s._stable = true ∧ s._held = false ∧ s._holdMs ≤ sub32 now s._pressedTs then
        ({ s with
            _lastChangeTs := (if sample ≠ s._lastSample then now else s._lastChangeTs)
            _lastSample := sample, _held := true, _longEvent := true }, false)
      else
        ({ s with
            _lastChangeTs := (if sample ≠ s._lastSample then now else s._lastChangeTs)
            _lastSample := sample }, false)) := by
  obtain ⟨pin, d, h, ls, st, lst, pts, lcts, ce, le, held⟩ := s
  by_cases hs : sample = ls
  · subst hs
    simp only [tickNoGuard, ne_eq, not_true_eq_false, if_false]
    split_ifs <;> rfl
  · simp only [tickNoGuard, ne_eq, hs, not_false_eq_true, if_true]
    split_ifs <;> rfl

theorem tickNoGuard_eq_tick (s : EasyButton) (t now : Nat) (sample : Bool)
    (hinv : TimedInv t s) (htn : t ≤ now) (hnow : now < UINT32_MOD) :
    s.tickNoGuard now sample = s.tick now sample := by
  by_cases hc : s._debounceMs ≤ sub32 now (if sample ≠ s._lastSample then now else s._lastChangeTs)
      ∧ sample ≠ s._stable
  · have hst : (s.tick now sample).1._stable = sample := by
      rw [tick_eq, if_pos hc]
      simp only [onStableEdge_stable]
    rw [tickNoGuard_flat, tick_eq, if_pos hc, if_pos hc]
    congr 1
    apply onStableEdgeNoGuard_eq
    intro h1 h2
    simp only at h1 h2 ⊢
    exact release_guard_holds s t now sample hinv htn hnow h2 (by rw [hst]; exact h1)
  · rw [tickNoGuard_flat, tick_eq, if_neg hc, if_neg hc]

theorem runTraceNoGuard_eq (ops : List Op) :
    ∀ (s : EasyButton) (t : Nat), TimedInv t s → nonDecreasing t ops = true →
      nonWrapping ops = true → runTraceNoGuard s ops = runTrace s ops := by
  induction ops with
  | nil => intro s t _ _ _; rfl
  | cons o os ih =>
    intro s t hs hmono hwrap
    cases o with
    | tick now sample =>
      simp only [nonDecreasing, nonWrapping, Bool.and_eq_true, decide_eq_true_eq] at hmono hwrap
      have e := tickNoGuard_eq_tick s t now sample hs hmono.1 hwrap.1
      simp only [runTraceNoGuard, runTrace, stepNoGuard, step, e]
      rw [ih _ now (timedInv_tick s t now sample hs hmono.1 hwrap.1) hmono.2 hwrap.2]
    | isClick =>
      simp only [nonDecreasing, nonWrapping] at hmono hwrap
      simp only [runTraceNoGuard, runTrace, stepNoGuard, step]
      exact congrArg (List.cons _) (ih _ t (timedInv_step s t Op.isClick hs
        (by simp [nonDecreasing]) (by simp [nonWrapping])) hmono hwrap)
    | isHolded =>
      simp only [nonDecreasing, nonWrapping] at hmono hwrap
      simp only [runTraceNoGuard, runTrace, stepNoGuard, step]
      exact congrArg (List.cons _) (ih _ t (timedInv_step s t Op.isHolded hs
        (by simp [nonDecreasing]) (by simp [nonWrapping])) hmono hwrap)

/-- C20 (the minimum-duration test on release is redundant). From a constructed and
configured button, along any sequence of calls whose `tick()` clock values never decrease
and never wrap: the button with `onStableEdgeNoGuard`, which has no
`(now - _pressedTs) >= _debounceMs` test, goes through the same states and returns the
same values as the button of the source; and at every `tick()` that commits a release
the 32-bit difference `now - _pressedTs` is at least `_debounceMs` and the click event is
set exactly when `_held` is false. -/
theorem debounce_guard_redundant (pin d h : Nat) (ops : List Op)
    (hmono : nonDecreasing 0 ops = true) (hwrap : nonWrapping ops = true) :
    runTraceNoGuard (configured pin d h) ops = runTrace (configured pin d h) ops
      ∧ ∀ (pre post : List Op) (now : Nat) (sample : Bool),
        ops = pre ++ Op.tick now sample :: post →
        (run (configured pin d h) pre)._stable = true →
        ((run (configured pin d h) pre).tick now sample).1._stable = false →
        (run (configured pin d h) pre)._debounceMs
            ≤ sub32 now (run (configured pin d h) pre)._pressedTs
          ∧ (((run (configured pin d h) pre).tick now sample).1._clickedEvent = true
              ↔ (run (configured pin d h) pre)._held = false) := by
  refine ⟨runTraceNoGuard_eq ops _ 0 (timedInv_configured pin d h) hmono hwrap, ?_⟩
  intro pre post now sample hops hst hrel
  subst hops
  rw [nonDecreasing_append, Bool.and_eq_true] at hmono
  rw [nonWrapping_append, Bool.and_eq_true] at hwrap
  have hinv := timedInv_run pre _ 0 (timedInv_configured pin d h) hmono.1 hwrap.1
  have htn : lastTick 0 pre ≤ now := by
    have := hmono.2
    simp only [nonDecreasing, Bool.and_eq_true, decide_eq_true_eq] at this
    exact this.1
  have hnow : now < UINT32_MOD := by
    have := hwrap.2
    simp only [nonWrapping, Bool.and_eq_true, decide_eq_true_eq] at this
    exact this.1
  have hg := release_guard_holds _ _ now sample hinv htn hnow hst hrel
  have hce := (flagInv_of_reachable _ ⟨pin, d, h, pre, rfl⟩).2.1 hst
  refine ⟨hg, ?_⟩
  generalize run (configured pin d h) pre = s at hst hrel hg hce
  obtain ⟨pin1, d1, h1, ls, st, lst, pts, lcts, ce, le, held⟩ := s
  simp only at hst hg hce
  subst hst hce
  revert hrel
  cases sample <;> cases held <;>
    simp [tick_eq, onStableEdge, hg] <;> (try split_ifs) <;> simp

theorem debounce_guard_redundant_witness :
    runTraceNoGuard (configured 5 10 1000)
        [Op.tick 0 true, Op.tick 10 true, Op.tick 300 false, Op.tick 310 false, Op.isClick]
      = runTrace (configured 5 10 1000)
        [Op.tick 0 true, Op.tick 10 true, Op.tick 300 false, Op.tick 310 false, Op.isClick]
      ∧ (10 ≤ sub32 310 10) :=
  ⟨(debounce_guard_redundant 5 10 1000
      [Op.tick 0 true, Op.tick 10 true, Op.tick 300 false, Op.tick 310 false, Op.isClick]
      (by decide) (by decide)).1,
   ((debounce_guard_redundant 5 10 1000
      [Op.tick 0 true, Op.tick 10 true, Op.tick 300 false, Op.tick 310 false, Op.isClick]
      (by decide) (by decide)).2 [Op.tick 0 true, Op.tick 10 true, Op.tick 300 false]
      [Op.isClick] 310 false rfl (by decide) (by decide)).1⟩

end EasyButton

/-! ## Properties of the handlers -/

theorem rotate_frame (ev : EncoderEvents) (l : Label) :
    (rotate ev l)._id = l._id ∧ (rotate ev l)._button = l._button
      ∧ (rotate ev l)._name = l._name := by
  obtain ⟨b, q, id, name⟩ := l
  obtain ⟨turn, right, left, click⟩ := ev
  cases turn <;> cases right <;> cases left <;>
    simp only [rotate, Label.set_quantity, Label.get_quantity] <;>
    repeat (first | split | simp)

theorem rotate_no_event (ev : EncoderEvents) (l : Label)
    (h : ev.turn = false ∨ (ev.right = false ∧ ev.left = false)) : rotate ev l = l := by
  unfold rotate
  rcases h with h | ⟨h1, h2⟩
  · simp [h]
  · simp [h1, h2]

theorem rotate_quantity (ev : EncoderEvents) (l : Label) (hq : l._quantity ≤ UINT16_MAX) :
    (rotate ev l)._quantity ≤ UINT16_MAX
      ∧ (rotate ev l)._quantity ≤ l._quantity + 1
      ∧ l._quantity ≤ (rotate ev l)._quantity + 1
      ∧ (ev.turn = true → ev.left = true → l._quantity = 0 → (rotate ev l)._quantity = 0)
      ∧ (ev.turn = true → ev.right = true → ev.left = false → l._quantity = UINT16_MAX →
          (rotate ev l)._quantity = UINT16_MAX) := by
  obtain ⟨b, q, id, name⟩ := l
  obtain ⟨turn, right, left, click⟩ := ev
  simp only [UINT16_MAX] at hq ⊢
  cases turn <;> cases right <;> cases left <;>
    simp [rotate, Label.set_quantity, Label.get_quantity, toUint16, UINT16_MAX] <;>
    (try split_ifs) <;> (try simp at *) <;> omega

theorem encoder_handler_eq (c : Controller) (ev : EncoderEvents) (postOk : Bool)
    (i : Fin LABELS_NUM) (hi : c.selected_label_index = i.val) :
    encoder_handler c ev postOk =
      some ({ c with labels := Function.update c.labels i (rotate ev (c.labels i)) },
        if ev.click = true ∧ 0 < (rotate ev (c.labels i))._quantity then
          [((rotate ev (c.labels i))._id, (rotate ev (c.labels i))._quantity)]
        else []) := by
  have h : c.selected_label_index < LABELS_NUM := by rw [hi]; exact i.isLt
  have hfin : (⟨c.selected_label_index, h⟩ : Fin LABELS_NUM) = i := Fin.ext hi
  unfold encoder_handler
  rw [dif_pos h]
  simp only [hfin, Label.get_quantity, Label.get_id]
  congr 2
  by_cases hc : ev.click = true <;> by_cases hq : 0 < (rotate ev (c.labels i))._quantity <;>
    simp [hc, hq]

/-- C7 (quantities saturate). In a run of `encoder_handler()` with a valid selection and
every quantity within the `uint16_t` range: every quantity is within [0, 65535]
afterwards; the selected label's quantity moves by at most 1 as a natural number, so it
never wraps; a rotate-left event at quantity 0 leaves it 0; and a rotate-right event at
quantity 65535 leaves it 65535. -/
theorem quantity_saturates (c : Controller) (ev : EncoderEvents) (postOk : Bool)
    (i : Fin LABELS_NUM) (hi : c.selected_label_index = i.val)
    (hq : ∀ j, (c.labels j)._quantity ≤ UINT16_MAX) :
    ∃ c' calls, encoder_handler c ev postOk = some (c', calls)
      ∧ (∀ j, (c'.labels j)._quantity ≤ UINT16_MAX)
      ∧ (c'.labels i)._quantity ≤ (c.labels i)._quantity + 1
      ∧ (c.labels i)._quantity ≤ (c'.labels i)._quantity + 1
      ∧ (ev.turn = true → ev.left = true → (c.labels i)._quantity = 0 →
          (c'.labels i)._quantity = 0)
      ∧ (ev.turn = true → ev.right = true → ev.left = false →
          (c.labels i)._quantity = UINT16_MAX → (c'.labels i)._quantity = UINT16_MAX) := by
  obtain ⟨r1, r2, r3, r4, r5⟩ := rotate_quantity ev (c.labels i) (hq i)
  refine ⟨_, _, encoder_handler_eq c ev postOk i hi, ?_, ?_, ?_, ?_, ?_⟩
  · intro j
    by_cases hj : j = i
    · subst hj; simpa using r1
    · simpa [Function.update_noteq hj] using hq j
  · simpa using r2
  · simpa using r3
  · simpa using r4
  · simpa using r5

theorem quantity_saturates_witness :
    ∃ c' calls, encoder_handler startup ⟨true, false, true, false⟩ true = some (c', calls)
      ∧ (c'.labels 0)._quantity = 0 := by
  obtain ⟨c', calls, h1, _, _, _, h5, _⟩ :=
    quantity_saturates startup ⟨true, false, true, false⟩ true 0 (by decide) (by decide)
  exact ⟨c', calls, h1, h5 rfl rfl (by decide)⟩

/-- C9 (submission trigger). In a run of `encoder_handler()` with a valid selection,
`send_post` is called exactly once, with the id and the quantity of the selected label,
if the encoder reports a click and that quantity, as it stands when the click is
handled, is greater than 0; it is not called if there is no click or that quantity
is 0. The id is the one the label had before the run, and when the run handles no
rotation the quantity is the one before the run too. -/
theorem submission_trigger (c : Controller) (ev : EncoderEvents) (postOk : Bool)
    (i : Fin LABELS_NUM) (hi : c.selected_label_index = i.val) :
    ∃ c' calls, encoder_handler c ev postOk = some (c', calls)
      ∧ (ev.click = true → 0 < (c'.labels i).get_quantity →
          calls = [((c'.labels i).get_id, (c'.labels i).get_quantity)])
      ∧ (ev.click = false ∨ (c'.labels i).get_quantity = 0 → calls = [])
      ∧ (c'.labels i).get_id = (c.labels i).get_id
      ∧ (ev.turn = false → (c'.labels i).get_quantity = (c.labels i).get_quantity) := by
  refine ⟨_, _, encoder_handler_eq c ev postOk i hi, ?_, ?_, ?_, ?_⟩
  · intro hc hq
    simp only [Label.get_quantity, Function.update_same] at hq
    simp [hc, hq, Label.get_id, Label.get_quantity]
  · intro h
    simp only [Label.get_quantity, Function.update_same] at h
    rcases h with h | h
    · simp [h]
    · simp [h]
  · simp only [Label.get_id, Function.update_same]
    exact (rotate_frame ev (c.labels i)).1
  · intro ht
    simp only [Label.get_quantity, Function.update_same]
    rw [rotate_no_event ev (c.labels i) (Or.inl ht)]

theorem submission_trigger_witness :
    ∃ c' calls, encoder_handler exampleSelected ⟨false, false, false, true⟩ true
        = some (c', calls)
      ∧ calls = [(1, 2)] := by
  obtain ⟨c', calls, h1, _, _, _, _⟩ :=
    submission_trigger exampleSelected ⟨false, false, false, true⟩ true 1 (by decide)
  refine ⟨c', calls, h1, ?_⟩
  have e : (encoder_handler exampleSelected ⟨false, false, false, true⟩ true).map Prod.snd
      = some [(1, 2)] := by decide
  rw [h1] at e
  simpa using e

/-- C10 (submission does not touch item state). A run of `encoder_handler()` with a
valid selection and no rotation event, whether or not the encoder reports a click and
whatever `send_post` returns when it is called, leaves every label, so every quantity,
and `selected_label_index` as they were. -/
theorem submission_keeps_state (c : Controller) (ev : EncoderEvents) (postOk : Bool)
    (i : Fin LABELS_NUM) (hi : c.selected_label_index = i.val)
    (hrot : ev.turn = false ∨ (ev.right = false ∧ ev.left = false)) :
    ∃ c' calls, encoder_handler c ev postOk = some (c', calls)
      ∧ (∀ j, c'.labels j = c.labels j)
      ∧ (∀ j, (c'.labels j).get_quantity = (c.labels j).get_quantity)
      ∧ c'.selected_label_index = c.selected_label_index := by
  have hl : ∀ j, Function.update c.labels i (rotate ev (c.labels i)) j = c.labels j := by
    intro j
    rw [rotate_no_event ev (c.labels i) hrot, Function.update_eq_self]
  refine ⟨_, _, encoder_handler_eq c ev postOk i hi, ?_, ?_, rfl⟩
  · exact hl
  · intro j
    simp only [Label.get_quantity]
    rw [hl j]

theorem submission_keeps_state_witness :
    ∃ c' calls, encoder_handler exampleSelected ⟨false, false, false, true⟩ false
        = some (c', calls)
      ∧ (∀ j, (c'.labels j).get_quantity = (exampleSelected.labels j).get_quantity)
      ∧ c'.selected_label_index = 1 := by
  obtain ⟨c', calls, h1, _, h3, h4⟩ :=
    submission_keeps_state exampleSelected ⟨false, false, false, true⟩ false 1 (by decide)
      (Or.inl rfl)
  exact ⟨c', calls, h1, h3, h4⟩

/-! ### The selection scan -/

theorem labels_body_labels (io : Nat → Nat × Bool) (c : Controller) (i j : Fin LABELS_NUM)
    (hj : j ≠ i) : (labels_body io c i).labels j = c.labels j := by
  simp only [labels_body]
  split_ifs <;> simp [Function.update_noteq hj]

theorem labels_body_selected (io : Nat → Nat × Bool) (c : Controller) (i : Fin LABELS_NUM) :
    (labels_body io c i).selected_label_index
      = if reportsClick c io i = true then i.val else c.selected_label_index := by
  simp only [labels_body, reportsClick]
  split_ifs <;> rfl

theorem reportsClick_congr (io : Nat → Nat × Bool) (c c1 : Controller) (j : Fin LABELS_NUM)
    (h : c1.labels j = c.labels j) : reportsClick c1 io j = reportsClick c io j := by
  unfold reportsClick
  rw [h]

/-- The scan over an increasing list of indices: labels outside the list are untouched,
and the selection ends at the last listed index that reports a click, or stays. -/
theorem scan_spec (io : Nat → Nat × Bool) (l : List (Fin LABELS_NUM)) :
    l.Pairwise (· < ·) → ∀ c : Controller,
      (∀ j, j ∉ l → (l.foldl (labels_body io) c).labels j = c.labels j)
        ∧ ((∃ i ∈ l, reportsClick c io i = true
              ∧ (l.foldl (labels_body io) c).selected_label_index = i.val
              ∧ ∀ j ∈ l, i < j → reportsClick c io j = false)
            ∨ ((l.foldl (labels_body io) c).selected_label_index = c.selected_label_index
              ∧ ∀ j ∈ l, reportsClick c io j = false)) := by
  induction l with
  | nil =>
    intro _ c
    exact ⟨fun _ _ => rfl, Or.inr ⟨rfl, fun j hj => absurd hj (List.not_mem_nil j)⟩⟩
  | cons i rest ih =>
    intro hp c
    rw [List.pairwise_cons] at hp
    obtain ⟨hlt, hrest⟩ := hp
    obtain ⟨ihl, ihs⟩ := ih hrest (labels_body io c i)
    have hsame : ∀ j ∈ rest, reportsClick (labels_body io c i) io j = reportsClick c io j := by
      intro j hj
      exact reportsClick_congr io c _ j (labels_body_labels io c i j (ne_of_gt (hlt j hj)))
    simp only [List.foldl_cons]
    refine ⟨?_, ?_⟩
    · intro j hj
      simp only [List.mem_cons, not_or] at hj
      rw [ihl j hj.2, labels_body_labels io c i j hj.1]
    · rcases ihs with ⟨k, hk, hrep, hsel, hlater⟩ | ⟨hsel, hnone⟩
      · left
        refine ⟨k, List.mem_cons_of_mem _ hk, ?_, hsel, ?_⟩
        · rw [← hsame k hk]; exact hrep
        · intro j hj hkj
          rcases List.mem_cons.mp hj with rfl | hj
          · exact absurd hkj (lt_asymm (hlt k hk))
          · rw [← hsame j hj]; exact hlater j hj hkj
      · rw [labels_body_selected] at hsel
        by_cases hi : reportsClick c io i = true
        · left
          rw [if_pos hi] at hsel
          refine ⟨i, List.mem_cons_self _ _, hi, hsel, ?_⟩
          intro j hj hij
          rcases List.mem_cons.mp hj with rfl | hj
          · exact absurd hij (lt_irrefl _)
          · rw [← hsame j hj]; exact hnone j hj
        · right
          rw [if_neg hi] at hsel
          refine ⟨hsel, ?_⟩
          intro j hj
          rcases List.mem_cons.mp hj with rfl | hj
          · simpa using hi
          · rw [← hsame j hj]; exact hnone j hj

/-- C8 (last writer wins in roster order). After one run of `labels_handler()`,
`selected_label_index` is the largest index whose label reports a click during the
run, and is unchanged when no label reports one. Each label is, when its iteration
starts, as it was when the run started, so `reportsClick` is what its `is_selected()`
returns in the run. -/
theorem selection_last_writer_wins (c : Controller) (io : Nat → Nat × Bool) :
    (∀ i : Fin LABELS_NUM, reportsClick c io i = true →
        (∀ j : Fin LABELS_NUM, i < j → reportsClick c io j = false) →
        (labels_handler c io).selected_label_index = i.val)
      ∧ ((∀ i : Fin LABELS_NUM, reportsClick c io i = false) →
        (labels_handler c io).selected_label_index = c.selected_label_index)
      ∧ ∀ i : Fin LABELS_NUM,
        ((((List.finRange LABELS_NUM).take i.val).foldl (labels_body io) c).labels i)
          = c.labels i := by
  obtain ⟨_, hs⟩ := scan_spec io (List.finRange LABELS_NUM) (List.pairwise_lt_finRange _) c
  refine ⟨?_, ?_, ?_⟩
  · intro i hi hlater
    rcases hs with ⟨k, _, hrep, hsel, hk⟩ | ⟨_, hnone⟩
    · rcases lt_trichotomy k i with hlt | heq | hgt
      · rw [hk i (List.mem_finRange i) hlt] at hi
        exact Bool.noConfusion hi
      · rw [← heq]; exact hsel
      · rw [hlater k hgt] at hrep
        exact Bool.noConfusion hrep
    · rw [hnone i (List.mem_finRange i)] at hi
      exact Bool.noConfusion hi
  · intro hnone
    rcases hs with ⟨k, _, hrep, _, _⟩ | ⟨hsel, _⟩
    · rw [hnone k] at hrep
      exact Bool.noConfusion hrep
    · exact hsel
  · intro i
    have hp : ((List.finRange LABELS_NUM).take i.val).Pairwise (· < ·) :=
      (List.pairwise_lt_finRange _).sublist (List.take_sublist _ _)
    have hmem : ∀ i : Fin LABELS_NUM, i ∉ (List.finRange LABELS_NUM).take i.val := by decide
    exact (scan_spec io _ hp c).1 i (hmem i)

set_option maxRecDepth 100000 in
theorem selection_last_writer_wins_witness :
    reportsClick examplePressed exampleReads 2 = true
      ∧ reportsClick examplePressed exampleReads 4 = true
      ∧ (labels_handler examplePressed exampleReads).selected_label_index = 4 :=
  ⟨by decide, by decide,
   (selection_last_writer_wins examplePressed exampleReads).1 4 (by decide) (by decide)⟩

/-! ### Frame of the handlers -/

theorem rotate_step (ev : EncoderEvents) (l : Label) (hq : l._quantity ≤ UINT16_MAX) :
    (ev.turn = true → ev.right = true → ev.left = false → l._quantity < UINT16_MAX →
        (rotate ev l)._quantity = l._quantity + 1)
      ∧ (ev.turn = true → ev.left = true → ev.right = false → 0 < l._quantity →
        (rotate ev l)._quantity + 1 = l._quantity) := by
  obtain ⟨b, q, id, name⟩ := l
  obtain ⟨turn, right, left, click⟩ := ev
  simp only [UINT16_MAX] at hq ⊢
  cases turn <;> cases right <;> cases left <;>
    simp [rotate, Label.set_quantity, Label.get_quantity, toUint16, UINT16_MAX] <;>
    (try split_ifs) <;> (try simp at *) <;> omega

/-- C17 (rotation adjusts only the selected item, one step per event). In a run of
`encoder_handler()` with a valid selection whose quantity is a `uint16_t` value: a
rotate-right event without a rotate-left event raises the selected quantity by exactly 1
when it is below 65535; a rotate-left event without a rotate-right event lowers it by
exactly 1 when it is above 0; every other label and `selected_label_index` are
unchanged. -/
theorem rotation_adjusts_selected (c : Controller) (ev : EncoderEvents) (postOk : Bool)
    (i : Fin LABELS_NUM) (hi : c.selected_label_index = i.val)
    (hq : (c.labels i)._quantity ≤ UINT16_MAX) :
    ∃ c' calls, encoder_handler c ev postOk = some (c', calls)
      ∧ (ev.turn = true → ev.right = true → ev.left = false →
          (c.labels i).get_quantity < UINT16_MAX →
          (c'.labels i).get_quantity = (c.labels i).get_quantity + 1)
      ∧ (ev.turn = true → ev.left = true → ev.right = false →
          0 < (c.labels i).get_quantity →
          (c'.labels i).get_quantity + 1 = (c.labels i).get_quantity)
      ∧ (∀ j, j ≠ i → c'.labels j = c.labels j)
      ∧ (∀ j, j ≠ i → (c'.labels j).get_quantity = (c.labels j).get_quantity)
      ∧ c'.selected_label_index = c.selected_label_index := by
  obtain ⟨r1, r2⟩ := rotate_step ev (c.labels i) hq
  refine ⟨_, _, encoder_handler_eq c ev postOk i hi, ?_, ?_, ?_, ?_, rfl⟩
  · simpa [Label.get_quantity] using r1
  · simpa [Label.get_quantity] using r2
  · intro j hj
    simp [Function.update_noteq hj]
  · intro j hj
    simp [Function.update_noteq hj]

theorem rotation_adjusts_selected_witness :
    ∃ c' calls, encoder_handler exampleSelected ⟨true, true, false, false⟩ true
        = some (c', calls)
      ∧ (c'.labels 1).get_quantity = 3 ∧ (c'.labels 0).get_quantity = 0 := by
  obtain ⟨c', calls, h1, h2, _, _, h5, _⟩ :=
    rotation_adjusts_selected exampleSelected ⟨true, true, false, false⟩ true 1 (by decide)
      (by decide)
  refine ⟨c', calls, h1, ?_, ?_⟩
  · rw [h2 rfl rfl rfl (by decide)]
    decide
  · rw [h5 0 (by decide)]
    decide

theorem labels_body_frame (io : Nat → Nat × Bool) (c : Controller) (i j : Fin LABELS_NUM) :
    ((labels_body io c i).labels j)._quantity = (c.labels j)._quantity
      ∧ ((labels_body io c i).labels j)._id = (c.labels j)._id
      ∧ ((labels_body io c i).labels j)._name = (c.labels j)._name := by
  by_cases hj : j = i
  · subst hj
    simp only [labels_body]
    split_ifs <;> simp [Label.is_selected, Label.tick]
  · rw [labels_body_labels io c i j hj]
    exact ⟨rfl, rfl, rfl⟩

theorem scan_frame_list (io : Nat → Nat × Bool) (l : List (Fin LABELS_NUM)) :
    ∀ (c : Controller) (j : Fin LABELS_NUM),
      ((l.foldl (labels_body io) c).labels j)._quantity = (c.labels j)._quantity
        ∧ ((l.foldl (labels_body io) c).labels j)._id = (c.labels j)._id
        ∧ ((l.foldl (labels_body io) c).labels j)._name = (c.labels j)._name := by
  induction l with
  | nil => intro c j; exact ⟨rfl, rfl, rfl⟩
  | cons i rest ih =>
    intro c j
    obtain ⟨a1, a2, a3⟩ := ih (labels_body io c i) j
    obtain ⟨b1, b2, b3⟩ := labels_body_frame io c i j
    simp only [List.foldl_cons]
    exact ⟨a1.trans b1, a2.trans b2, a3.trans b3⟩

/-- C18 (the selection scan has no other effect). A run of `labels_handler()` changes no
label's quantity, id or name; as a handler run it makes no `send_post` call; and when no
label other than the selected one reports a click, `selected_label_index` is
unchanged. -/
theorem scan_has_no_other_effect (c : Controller) (io : Nat → Nat × Bool) :
    (∀ j, ((labels_handler c io).labels j).get_quantity = (c.labels j).get_quantity
        ∧ ((labels_handler c io).labels j).get_id = (c.labels j).get_id
        ∧ ((labels_handler c io).labels j).get_name = (c.labels j).get_name)
      ∧ (∀ st : ScreenStatics,
          runHandler { controller := c, statics := st } (HandlerRun.labels io)
            = some ({ controller := labels_handler c io, statics := st }, []))
      ∧ ∀ i : Fin LABELS_NUM, c.selected_label_index = i.val →
          (∀ j : Fin LABELS_NUM, j ≠ i → reportsClick c io j = false) →
          (labels_handler c io).selected_label_index = c.selected_label_index := by
  refine ⟨fun j => scan_frame_list io _ c j, fun st => rfl, ?_⟩
  intro i hi hothers
  obtain ⟨_, hs⟩ := scan_spec io (List.finRange LABELS_NUM) (List.pairwise_lt_finRange _) c
  rcases hs with ⟨k, _, hrep, hsel, _⟩ | ⟨hsel, _⟩
  · by_cases hk : k = i
    · exact hsel.trans ((congrArg Fin.val hk).trans hi.symm)
    · rw [hothers k hk] at hrep
      exact Bool.noConfusion hrep
  · exact hsel

set_option maxRecDepth 100000 in
theorem scan_has_no_other_effect_witness :
    (labels_handler examplePressed (fun i => (30, decide (i ≠ 0)))).selected_label_index
      = 0 :=
  (scan_has_no_other_effect examplePressed (fun i => (30, decide (i ≠ 0)))).2.2 0 rfl
    (by decide)

/-! ### The screen and the handler runs -/

theorem screen_handler_eq (c : Controller) (st : ScreenStatics) (i : Fin LABELS_NUM)
    (hi : c.selected_label_index = i.val) :
    screen_handler c st =
      if i.val = st.prev_label_index ∧ (c.labels i).get_quantity = st.prev_quantity then
        some (st, [])
      else
        some ({ prev_label_index := i.val, prev_quantity := (c.labels i).get_quantity },
              [((c.labels i).get_name, (c.labels i).get_quantity)]) := by
  have h : c.selected_label_index < LABELS_NUM := by rw [hi]; exact i.isLt
  have hfin : (⟨c.selected_label_index, h⟩ : Fin LABELS_NUM) = i := Fin.ext hi
  unfold screen_handler
  rw [dif_pos h]
  simp only [hfin, hi]

/-- C14 (redraw only on change). A run of `screen_handler()` with a valid selection
redraws if and only if the pair of `selected_label_index` and the selected quantity
differs from the pair held in the statics, which is the pair of the last redraw; the
redraw prints the selected name and quantity; afterwards the statics hold the current
pair; the first run after startup redraws, whatever the index and the quantity; and a
further run with the same index and quantity redraws nothing. -/
theorem redraw_only_on_change (c : Controller) (st : ScreenStatics) (i : Fin LABELS_NUM)
    (hi : c.selected_label_index = i.val) :
    ∃ st1 draws, screen_handler c st = some (st1, draws)
      ∧ (draws ≠ [] ↔
          (i.val, (c.labels i).get_quantity) ≠ (st.prev_label_index, st.prev_quantity))
      ∧ (draws ≠ [] → draws = [((c.labels i).get_name, (c.labels i).get_quantity)])
      ∧ (draws = [] → st1 = st)
      ∧ st1 = { prev_label_index := i.val, prev_quantity := (c.labels i).get_quantity }
      ∧ (st = screenStartup → draws ≠ [])
      ∧ ∀ c2 : Controller, c2.selected_label_index = i.val →
          (c2.labels i).get_quantity = (c.labels i).get_quantity →
          screen_handler c2 st1 = some (st1, []) := by
  by_cases hsame : i.val = st.prev_label_index ∧ (c.labels i).get_quantity = st.prev_quantity
  · have hst : st = { prev_label_index := i.val, prev_quantity := (c.labels i).get_quantity } := by
      obtain ⟨p, q⟩ := st
      simp only at hsame
      rw [hsame.1, hsame.2]
    refine ⟨st, [], ?_, ?_, ?_, ?_, hst, ?_, ?_⟩
    · rw [screen_handler_eq c st i hi, if_pos hsame]
    · simp [hsame.1, hsame.2]
    · intro h; exact absurd rfl h
    · intro _; rfl
    · intro hstart
      have hlt : i.val < 7 := i.isLt
      rw [hstart] at hsame
      simp only [screenStartup, UINT8_MAX] at hsame
      omega
    · intro c2 h2 hq2
      rw [screen_handler_eq c2 st i h2, if_pos ⟨hsame.1, hq2.trans hsame.2⟩]
  · refine ⟨{ prev_label_index := i.val, prev_quantity := (c.labels i).get_quantity },
      [((c.labels i).get_name, (c.labels i).get_quantity)], ?_, ?_, ?_, ?_, rfl, ?_, ?_⟩
    · rw [screen_handler_eq c st i hi, if_neg hsame]
    · constructor
      · intro _ hpair
        simp only [Prod.mk.injEq] at hpair
        exact hsame hpair
      · intro _; simp
    · intro _; rfl
    · intro h; simp at h
    · intro _; simp
    · intro c2 h2 hq2
      rw [screen_handler_eq c2 _ i h2, if_pos ⟨rfl, hq2⟩]

theorem redraw_only_on_change_witness :
    ∃ st1 draws, screen_handler exampleSelected screenStartup = some (st1, draws)
      ∧ draws = [("Headamame Experience", 2)]
      ∧ screen_handler exampleSelected st1 = some (st1, []) := by
  obtain ⟨st1, draws, h1, _, h3, _, _, h6, h7⟩ :=
    redraw_only_on_change exampleSelected screenStartup 1 (by decide)
  refine ⟨st1, draws, h1, ?_, h7 exampleSelected (by decide) rfl⟩
  rw [h3 (h6 rfl)]
  decide

theorem labels_handler_selected_lt (c : Controller) (io : Nat → Nat × Bool)
    (h : c.selected_label_index < LABELS_NUM) :
    (labels_handler c io).selected_label_index < LABELS_NUM := by
  obtain ⟨_, hs⟩ := scan_spec io (List.finRange LABELS_NUM) (List.pairwise_lt_finRange _) c
  rcases hs with ⟨k, _, _, hsel, _⟩ | ⟨hsel, _⟩
  · exact lt_of_eq_of_lt hsel k.isLt
  · exact lt_of_eq_of_lt hsel h

/-- A run of `encoder_handler()` from a state with a valid selection and ids in
declaration order keeps both and passes the selected index as the id of every
`send_post` call. -/
theorem encoder_handler_keeps (c : Controller) (ev : EncoderEvents) (postOk : Bool)
    (h : c.selected_label_index < LABELS_NUM)
    (hid : ∀ i : Fin LABELS_NUM, (c.labels i)._id = i.val) :
    ∃ c1 calls, encoder_handler c ev postOk = some (c1, calls)
      ∧ c1.selected_label_index = c.selected_label_index
      ∧ (∀ i : Fin LABELS_NUM, (c1.labels i)._id = i.val)
      ∧ ∀ call ∈ calls, call.1 = c.selected_label_index := by
  refine ⟨_, _, encoder_handler_eq c ev postOk ⟨_, h⟩ rfl, rfl, ?_, ?_⟩
  · intro i
    by_cases hi : i = ⟨c.selected_label_index, h⟩
    · subst hi
      simp only [Function.update_same]
      exact ((rotate_frame ev _).1).trans (hid _)
    · simp only [Function.update_noteq hi]
      exact hid i
  · intro call hcall
    split_ifs at hcall
    · simp only [List.mem_singleton] at hcall
      rw [hcall]
      exact ((rotate_frame ev _).1).trans (hid _)
    · exact absurd hcall (List.not_mem_nil _)

theorem screen_handler_some (c : Controller) (st : ScreenStatics)
    (h : c.selected_label_index < LABELS_NUM) :
    ∃ st1 draws, screen_handler c st = some (st1, draws) := by
  rw [screen_handler_eq c st ⟨_, h⟩ rfl]
  split_ifs
  · exact ⟨_, _, rfl⟩
  · exact ⟨_, _, rfl⟩

/-- One handler run from a state with a valid selection and ids in declaration order:
it stays in bounds and keeps both. -/
theorem runHandler_keeps (fw : Firmware) (r : HandlerRun)
    (h : fw.controller.selected_label_index < LABELS_NUM)
    (hid : ∀ i : Fin LABELS_NUM, (fw.controller.labels i)._id = i.val) :
    ∃ fw1 calls, runHandler fw r = some (fw1, calls)
      ∧ fw1.controller.selected_label_index < LABELS_NUM
      ∧ ∀ i : Fin LABELS_NUM, (fw1.controller.labels i)._id = i.val := by
  cases r with
  | labels io =>
    refine ⟨{ fw with controller := labels_handler fw.controller io }, [], rfl,
      labels_handler_selected_lt _ io h, ?_⟩
    intro i
    exact ((scan_frame_list io _ fw.controller i).2.1).trans (hid i)
  | encoder ev postOk =>
    obtain ⟨c1, calls, e, hsel, hid1, _⟩ := encoder_handler_keeps fw.controller ev postOk h hid
    refine ⟨{ fw with controller := c1 }, calls, ?_, ?_, hid1⟩
    · simp only [runHandler, e]
    · exact lt_of_eq_of_lt hsel h
  | screen =>
    obtain ⟨st1, draws, e⟩ := screen_handler_some fw.controller fw.statics h
    refine ⟨{ fw with statics := st1 }, [], ?_, h, hid⟩
    simp only [runHandler, e]

theorem runHandlers_keeps (runs : List HandlerRun) :
    ∀ fw : Firmware, fw.controller.selected_label_index < LABELS_NUM →
      (∀ i : Fin LABELS_NUM, (fw.controller.labels i)._id = i.val) →
      ∃ fw1, runHandlers fw runs = some fw1
        ∧ fw1.controller.selected_label_index < LABELS_NUM
        ∧ ∀ i : Fin LABELS_NUM, (fw1.controller.labels i)._id = i.val := by
  induction runs with
  | nil => intro fw h hid; exact ⟨fw, rfl, h, hid⟩
  | cons r rs ih =>
    intro fw h hid
    obtain ⟨fw1, calls, e, h1, hid1⟩ := runHandler_keeps fw r h hid
    obtain ⟨fw2, e2, h2, hid2⟩ := ih fw1 h1 hid1
    exact ⟨fw2, by simp only [runHandlers, e, e2], h2, hid2⟩

theorem startup_ids : ∀ i : Fin LABELS_NUM, (startup.labels i)._id = i.val := by decide

/-- C11 (valid selection). From startup, every sequence of `labels_handler()`,
`encoder_handler()` and `screen_handler()` runs goes through without an out-of-bounds
access to `labels[]` and ends in a state with `selected_label_index < LABELS_NUM`. -/
theorem selection_stays_valid (runs : List HandlerRun) :
    ∃ fw, runHandlers firmwareStartup runs = some fw
      ∧ fw.controller.selected_label_index < LABELS_NUM := by
  obtain ⟨fw, e, h, _⟩ := runHandlers_keeps runs firmwareStartup (by decide) startup_ids
  exact ⟨fw, e, h⟩

/-- The ids of the roster as constructed at startup are pairwise distinct. -/
theorem startup_ids_distinct :
    ∀ i j : Fin LABELS_NUM, i ≠ j → (startup.labels i)._id ≠ (startup.labels j)._id := by
  intro i j hij h
  rw [startup_ids i, startup_ids j] at h
  exact hij (Fin.ext h)

theorem constructLabels_ids (r : List (Nat × String)) :
    ∀ (n i : Nat), n + r.length ≤ 256 → i < r.length →
      ((constructLabels r n).1[i]?).map Label.get_id = some (n + i) := by
  induction r with
  | nil => intro n i _ hi; exact absurd hi (Nat.not_lt_zero _)
  | cons p rest ih =>
    obtain ⟨pin, name⟩ := p
    intro n i hn hi
    simp only [List.length_cons] at hn hi
    cases i with
    | zero => simp [constructLabels, Label.new, Label.get_id]
    | succ k =>
      have hk : k < rest.length := by omega
      have hmod : (n + 1) % 256 = n + 1 := Nat.mod_eq_of_lt (by omega)
      simp only [constructLabels, Label.new, hmod, List.getElem?_cons_succ]
      rw [ih (n + 1) k (by omega) hk]
      congr 1
      omega

/-- C13 (identity follows declaration order). Constructing any roster of at most 256
labels in order, starting from `Label::label_count = 0`, gives label `i` the id `i`; so
at startup `labels[i]` has id `i` and the ids are pairwise distinct. After every
sequence of handler runs from startup each label still has its id, and every
`send_post` call of an `encoder_handler()` run passes `selected_label_index` as the
id. -/
theorem ids_follow_declaration_order (runs : List HandlerRun) (fw : Firmware)
    (hrun : runHandlers firmwareStartup runs = some fw) :
    (∀ (r : List (Nat × String)) (i : Nat), r.length ≤ 256 → i < r.length →
        ((constructLabels r 0).1[i]?).map Label.get_id = some i)
      ∧ (∀ i : Fin LABELS_NUM, (startup.labels i).get_id = i.val)
      ∧ (∀ i j : Fin LABELS_NUM, i ≠ j →
          (startup.labels i).get_id ≠ (startup.labels j).get_id)
      ∧ (∀ i : Fin LABELS_NUM, (fw.controller.labels i).get_id = i.val)
      ∧ ∀ (ev : EncoderEvents) (postOk : Bool),
          ∃ c1 calls, encoder_handler fw.controller ev postOk = some (c1, calls)
            ∧ ∀ call ∈ calls, call.1 = fw.controller.selected_label_index := by
  obtain ⟨fw1, e, h, hid⟩ := runHandlers_keeps runs firmwareStartup (by decide) startup_ids
  rw [hrun] at e
  injection e with e
  subst e
  refine ⟨?_, startup_ids, startup_ids_distinct, hid, ?_⟩
  · intro r i hr hi
    have := constructLabels_ids r 0 i (by omega) hi
    simpa using this
  · intro ev postOk
    obtain ⟨c1, calls, e1, _, _, hcalls⟩ := encoder_handler_keeps fw.controller ev postOk h hid
    exact ⟨c1, calls, e1, hcalls⟩

theorem ids_follow_declaration_order_witness :
    (∀ i : Fin LABELS_NUM,
        ((labels_handler startup (fun _ => (0, true))).labels i).get_id = i.val)
      ∧ ∃ c1 calls,
          encoder_handler (labels_handler startup (fun _ => (0, true)))
              ⟨true, true, false, true⟩ true = some (c1, calls)
            ∧ ∀ call ∈ calls,
                call.1 = (labels_handler startup (fun _ => (0, true))).selected_label_index :=
  ⟨(ids_follow_declaration_order [HandlerRun.labels (fun _ => (0, true))]
      { controller := labels_handler startup (fun _ => (0, true)), statics := screenStartup }
      rfl).2.2.2.1,
   (ids_follow_declaration_order [HandlerRun.labels (fun _ => (0, true))]
      { controller := labels_handler startup (fun _ => (0, true)), statics := screenStartup }
      rfl).2.2.2.2 ⟨true, true, false, true⟩ true⟩
